import Mathlib

/-!
Verification of the tinyquery binder/compiler (src/tinyquery/compiler.py and
src/tinyquery/typed_ast.py) against its natural-language specification.

The compiler module is embedded faithfully, definition by definition.  The
collaborator modules that the repository does not ship here (tq_ast, tq_types,
type_context, runtime, tinyquery, parser) are modelled from the specification
at their interface boundary; each such definition carries a doc comment
starting with "Modelled from the spec:".

Python exceptions are embedded as an explicit error type: the compiler's own
`CompileError` is one constructor, and the foreign Python exceptions that can
escape the compiler (TypeError, KeyError, AttributeError) are separate
constructors, so that theorems can distinguish "fails with the single
compile-error type" from "an unclassified exception escapes".  Python dict /
OrderedDict values are embedded as association lists with in-place update,
and Python sets as duplicate-free lists used only through membership.

Unbounded recursion through view expansion (the source performs no cycle
detection) is embedded with an explicit fuel parameter on the mutually
recursive select/table-expression compilers; running out of fuel is a
distinguished error.  All other recursion is structural.
-/

namespace TinyQuery

/-- Modelled from the spec: the type names of the missing tq_types module
(BOOL, INT, FLOAT, STRING, NONETYPE). -/
inductive TQType where
  | bool
  | int
  | float
  | string
  | nonetype
deriving DecidableEq, Repr

/-- Modelled from the spec: the runtime value families a parsed literal can
carry (boolean, integer, floating-point, text, or null).  The compiler never
computes with the payloads, so the floating-point payload is kept as its
source text. -/
inductive LitVal where
  | bool (b : Bool)
  | int (n : Int)
  | float (repr : String)
  | str (s : String)
  | null
deriving DecidableEq, Repr

/-- The ways a compilation can fail.  `compileError` is the compiler's own
exception class (src/tinyquery/compiler.py, class CompileError); the other
constructors are foreign Python exceptions that the compiler does not raise
itself but that its code can let escape (a TypeError from an operator
type-check, a KeyError from the catalog dict lookup, an AttributeError from a
missing attribute on an AST node).  `outOfFuel` is an artifact of the fuel
parameter bounding view-expansion recursion. -/
inductive Err where
  | compileError (msg : String)
  | pyTypeError (msg : String)
  | keyError (key : String)
  | attributeError (msg : String)
  | outOfFuel
deriving DecidableEq, Repr

namespace TqAst

/-- Modelled from the spec: the untyped expression nodes produced by the
parsing collaborator (Literal, ColumnId, UnaryOperator, BinaryOperator,
FunctionCall). -/
inductive Expr where
  | literal (value : LitVal)
  | columnId (name : String)
  | unaryOperator (operator : String) (expr : Expr)
  | binaryOperator (operator : String) (left : Expr) (right : Expr)
  | functionCall (name : String) (args : List Expr)
deriving Repr

/-- Modelled from the spec: an uncompiled select field, an expression plus an
optional explicit aliasName. -/
structure SelectField where
  expr : Expr
  aliasName : Option String
deriving Repr

/-- Modelled from the spec: an entry of the select-field list, which is either
an ordinary select field or a `*` wildcard (tq_ast.Star). -/
inductive SelectItem where
  | star
  | field (f : SelectField)
deriving Repr

mutual
/-- Modelled from the spec: untyped table expressions — named table (with
optional aliasName), comma-union of tables, conditional join, cross join, and
subquery.  Only TableId and Select nodes carry an aliasName attribute. -/
inductive TableExpr where
  | tableId (name : String) (aliasName : Option String)
  | tableUnion (tables : List TableExpr)
  | join (table1 : TableExpr) (table2 : TableExpr) (condition : Expr)
         (is_left_outer : Bool)
  | crossJoin (table1 : TableExpr) (table2 : TableExpr)
  | select (s : Select)

/-- Modelled from the spec: an uncompiled SELECT statement.  The GROUP BY
clause is a list of ColumnId nodes of which the compiler only reads the
names, so it is held as the list of those names; the ORDER BY clause is
never read by the compiler and is omitted. -/
inductive Select where
  | mk (select_fields : List SelectItem) (table_expr : Option TableExpr)
       (where_expr : Option Expr) (groups : Option (List String))
       (limit : Option Nat) (aliasName : Option String)
end

def Select.select_fields : Select → List SelectItem
  | .mk f _ _ _ _ _ => f

def Select.table_expr : Select → Option TableExpr
  | .mk _ t _ _ _ _ => t

def Select.where_expr : Select → Option Expr
  | .mk _ _ w _ _ _ => w

def Select.groups : Select → Option (List String)
  | .mk _ _ _ g _ _ => g

def Select.limit : Select → Option Nat
  | .mk _ _ _ _ l _ => l

def Select.aliasName : Select → Option String
  | .mk _ _ _ _ _ a => a

end TqAst

namespace TypedAst

/-- A resolved reference to a column of the current context
(typed_ast.ColumnRef): qualifier, column name and type. -/
structure ColumnRef where
  table : Option String
  column : String
  type : TQType
deriving DecidableEq, Repr

/-- Typed expression nodes (typed_ast.FunctionCall, AggregateFunctionCall,
Literal, ColumnRef).  The `func` field of a call holds the registry
function's name, standing for the runtime.Function object the source
stores. -/
inductive Expr where
  | functionCall (func : String) (args : List Expr) (type : TQType)
  | aggregateFunctionCall (func : String) (args : List Expr) (type : TQType)
  | literal (value : LitVal) (type : TQType)
  | columnRef (ref : ColumnRef)
deriving Repr

/-- The resolved type an expression node carries. -/
def Expr.type : Expr → TQType
  | .functionCall _ _ t => t
  | .aggregateFunctionCall _ _ t => t
  | .literal _ t => t
  | .columnRef r => r.type

/-- A compiled select field (typed_ast.SelectField): a typed expression plus
its output aliasName. -/
structure SelectField where
  expr : Expr
  aliasName : String
deriving Repr

/-- A single pair of fields to join on (typed_ast.JoinFields); column1
references table1 and column2 references table2. -/
structure JoinFields where
  column1 : ColumnRef
  column2 : ColumnRef
deriving DecidableEq, Repr

/-- Grouping information for a query (typed_ast.GroupSet).  The source holds
alias_groups as a Python set of strings; it is embedded as a duplicate-free
list used only through membership. -/
structure GroupSet where
  alias_groups : List String
  field_groups : List ColumnRef
deriving Repr

/-- The distinguished GroupSet meaning "group by nothing": everything ends up
in one group (typed_ast.TRIVIAL_GROUP_SET). -/
def TRIVIAL_GROUP_SET : GroupSet := ⟨[], []⟩

end TypedAst

/-- Modelled from the spec: a Scope Context (type_context.TypeContext) — an
ordered sequence of entries `(qualifier, column name) → type`, an optional
ambient aggregate context, and an optional implicit column context consulted
at lower priority by name resolution. -/
inductive TypeContext where
  | mk (columns : List ((Option String × String) × TQType))
       (aggregate_context : Option TypeContext)
       (implicit_context : Option TypeContext)

namespace TypeContext

def columns : TypeContext → List ((Option String × String) × TQType)
  | .mk c _ _ => c

def aggregate_context : TypeContext → Option TypeContext
  | .mk _ a _ => a

def implicit_context : TypeContext → Option TypeContext
  | .mk _ _ i => i

/-- Modelled from the spec: build a context from an ordered mapping of
qualified columns, with an optional ambient aggregate context or implicit
column context (type_context.TypeContext.from_full_columns). -/
def from_full_columns (cols : List ((Option String × String) × TQType))
    (agg : Option TypeContext) (impl : Option TypeContext) : TypeContext :=
  .mk cols agg impl

/-- Modelled from the spec: build a context whose entries all carry the given
qualifier (type_context.TypeContext.from_table_and_columns). -/
def from_table_and_columns (table_name : Option String)
    (cols : List (String × TQType)) (impl : Option TypeContext) : TypeContext :=
  .mk (cols.map fun p => ((table_name, p.1), p.2)) none impl

/-- Modelled from the spec: whether a possibly dot-qualified name refers to an
entry — an unqualified name matches the entry's bare column name, and a
qualified name matches `qualifier.column`. -/
def matchesName (name : String) (e : (Option String × String) × TQType) : Bool :=
  name == e.1.2 ||
    (match e.1.1 with
     | some t => name == t ++ "." ++ e.1.2
     | none => false)

/-- Modelled from the spec: resolve a name against a context.  A unique
matching entry yields a column reference carrying that entry's qualifier,
name and type; zero matches fall through to the implicit column context at
lower priority, or fail with the NotFound kind of CompileError; more than
one match fails with the Ambiguous kind
(type_context.TypeContext.column_ref_for_name). -/
def column_ref_for_name : TypeContext → String → Except Err TypedAst.ColumnRef
  | .mk cols _ impl, name =>
    match cols.filter (matchesName name), impl with
    | [e], _ => .ok ⟨e.1.1, e.1.2, e.2⟩
    | [], some c => column_ref_for_name c name
    | [], none => .error (.compileError ("No such field " ++ name ++ "."))
    | _ :: _ :: _, _ =>
      .error (.compileError ("Ambiguous field reference " ++ name ++ "."))

/-- Modelled from the spec: produce a derived context where the qualifier of
every entry — including the entries of the implicit column context — is
overwritten with the given aliasName
(type_context.TypeContext.context_with_full_alias). -/
def context_with_full_alias : TypeContext → String → TypeContext
  | .mk cols agg impl, aliasName =>
    .mk (cols.map fun e => ((some aliasName, e.1.2), e.2)) agg
        (match impl with
         | some c => some (context_with_full_alias c aliasName)
         | none => none)

/-- Modelled from the spec: subquery aliasing — bare column names stay
directly reachable, and the aliasName additionally exposes `aliasName.column` at
lower (implicit) priority
(type_context.TypeContext.context_with_subquery_alias). -/
def context_with_subquery_alias : TypeContext → String → TypeContext
  | .mk cols agg _, aliasName =>
    .mk cols agg (some (.mk (cols.map fun e => ((some aliasName, e.1.2), e.2)) none none))

/-- Modelled from the spec: join two or more contexts by concatenating their
entries, preserving each side's qualifiers
(type_context.TypeContext.join_contexts). -/
def join_contexts (ctxs : List TypeContext) : TypeContext :=
  .mk (ctxs.flatMap columns) none none

/-- Modelled from the spec: union of contexts for a comma-separated FROM list
— only unqualified column names are retained, in first-appearance order, and
the type recorded for a name must agree across all inputs
(type_context.TypeContext.union_contexts). -/
def union_contexts (ctxs : List TypeContext) : Except Err TypeContext := do
  let cols ← ctxs.foldlM
    (fun acc ctx =>
      ctx.columns.foldlM
        (fun (acc : List ((Option String × String) × TQType)) e =>
          match acc.find? (fun p => p.1.2 == e.1.2) with
          | some p =>
            if p.2 == e.2 then .ok acc
            else .error (.compileError ("Incompatible types in union: " ++ e.1.2))
          | none => .ok (acc ++ [((none, e.1.2), e.2)]))
        acc)
    []
  .ok (.mk cols none none)

end TypeContext

namespace TypedAst

mutual
/-- Compiled table expressions (typed_ast.NoTable, Table, TableUnion, Join and
a compiled Select used as a table), each carrying its resulting type
context. -/
inductive TableExpression where
  | noTable
  | table (name : String) (type_ctx : TypeContext)
  | tableUnion (tables : List TableExpression) (type_ctx : TypeContext)
  | join (table1 : TableExpression) (table2 : TableExpression)
         (conditions : List JoinFields) (is_left_outer : Bool)
         (type_ctx : TypeContext)
  | select (s : Select)

/-- A compiled query (typed_ast.Select): ordered select fields, the table
expression, the filter expression, the optional group set, the optional row
limit, and the result type context. -/
inductive Select where
  | mk (select_fields : List SelectField) (table : TableExpression)
       (where_expr : Expr) (group_set : Option GroupSet)
       (limit : Option Nat) (type_ctx : TypeContext)
end

def Select.select_fields : Select → List SelectField
  | .mk f _ _ _ _ _ => f

def Select.table : Select → TableExpression
  | .mk _ t _ _ _ _ => t

def Select.where_expr : Select → Expr
  | .mk _ _ w _ _ _ => w

def Select.group_set : Select → Option GroupSet
  | .mk _ _ _ g _ _ => g

def Select.limit : Select → Option Nat
  | .mk _ _ _ _ l _ => l

def Select.type_ctx : Select → TypeContext
  | .mk _ _ _ _ _ c => c

/-- Replace the type context of a compiled Select
(typed_ast.Select.with_type_ctx). -/
def Select.with_type_ctx : Select → TypeContext → Select
  | .mk f t w g l _, ctx => .mk f t w g l ctx

/-- The type context a compiled table expression carries; NoTable exposes the
empty context (typed_ast.NoTable.type_ctx is a property building it). -/
def TableExpression.type_ctx : TableExpression → TypeContext
  | .noTable => TypeContext.from_full_columns [] none none
  | .table _ c => c
  | .tableUnion _ c => c
  | .join _ _ _ _ c => c
  | .select s => s.type_ctx

/-- Replace the type context of a compiled table expression.  In the source
only typed_ast.Table and typed_ast.Select define with_type_ctx; calling it on
any other node raises a Python AttributeError, embedded here as the
attributeError case. -/
def TableExpression.with_type_ctx :
    TableExpression → TypeContext → Except Err TableExpression
  | .table n _, ctx => .ok (.table n ctx)
  | .select s, ctx => .ok (.select (s.with_type_ctx ctx))
  | _, _ => .error (.attributeError "with_type_ctx")

end TypedAst

/-- Modelled from the spec: the function registry's view of one resolved
function or operator (runtime.Function): its registry name and its
type-checking contract.  `check_types` returns none where the source raises
a Python TypeError for a rejected argument-type list. -/
structure TQFunction where
  name : String
  check_types : List TQType → Option TQType

/-- Modelled from the spec: the function registry interface (the runtime
module) — unary operators, binary operators, named functions, and the set of
names classified as aggregate functions. -/
structure Registry where
  unary_ops : List (String × (List TQType → Option TQType))
  binary_ops : List (String × (List TQType → Option TQType))
  functions : List (String × (List TQType → Option TQType))
  aggregates : List String

namespace Registry

/-- Modelled from the spec: runtime.get_unary_op; an unknown operator is the
UnknownFunction kind of compile error. -/
def get_unary_op (R : Registry) (op : String) : Except Err TQFunction :=
  match R.unary_ops.find? (fun p => p.1 == op) with
  | some p => .ok ⟨p.1, p.2⟩
  | none => .error (.compileError ("Unknown operator " ++ op ++ "."))

/-- Modelled from the spec: runtime.get_binary_op. -/
def get_binary_op (R : Registry) (op : String) : Except Err TQFunction :=
  match R.binary_ops.find? (fun p => p.1 == op) with
  | some p => .ok ⟨p.1, p.2⟩
  | none => .error (.compileError ("Unknown operator " ++ op ++ "."))

/-- Modelled from the spec: runtime.get_func. -/
def get_func (R : Registry) (name : String) : Except Err TQFunction :=
  match R.functions.find? (fun p => p.1 == name) with
  | some p => .ok ⟨p.1, p.2⟩
  | none => .error (.compileError ("Unknown function " ++ name ++ "."))

/-- Modelled from the spec: runtime.is_aggregate_func. -/
def is_aggregate_func (R : Registry) (name : String) : Bool :=
  R.aggregates.contains name

end Registry

/-- Modelled from the spec: a catalog entry — a base table with its ordered
columns (tinyquery.Table; the row data is irrelevant to compilation), or a
view (tinyquery.View).  The source keeps a view's query as raw text and
re-parses it on use; parsing is the external collaborator, so the view body
is held as its parse tree. -/
inductive TinyTable where
  | table (columns : List (String × TQType))
  | view (query : TqAst.Select)

/-- Modelled from the spec: the catalog `tables_by_name`, a Python dict. -/
def Catalog := List (String × TinyTable)

/-- Python dict lookup `d[k]`; a missing key raises KeyError at the call
site. -/
def dictFind (cat : Catalog) (name : String) : Option TinyTable :=
  (List.find? (fun p => p.1 == name) cat).map (fun p => p.2)

end TinyQuery

namespace TinyQuery

namespace Compiler

/-- Python OrderedDict assignment `d[k] = v`: update the value in place if the
key is present, else append the pair at the end. -/
def odInsert {K V : Type} [DecidableEq K] : List (K × V) → K → V → List (K × V)
  | [], k, v => [(k, v)]
  | p :: rest, k, v => if p.1 = k then (k, v) :: rest else p :: odInsert rest k v

/-- Python dict lookup `d[k]` as an option. -/
def odGet {K V : Type} [DecidableEq K] (d : List (K × V)) (k : K) : Option V :=
  (d.find? fun p => p.1 = k).map (fun p => p.2)

/-- Python `d.update(other)`: insert the other dict's pairs in order. -/
def odUpdate {K V : Type} [DecidableEq K] (d other : List (K × V)) : List (K × V) :=
  other.foldl (fun acc p => odInsert acc p.1 p.2) d

/-- Python `OrderedDict(pairs)`. -/
def odFromPairs {K V : Type} [DecidableEq K] (pairs : List (K × V)) : List (K × V) :=
  pairs.foldl (fun acc p => odInsert acc p.1 p.2) []

/-- Decimal digits of a natural number, most significant first, with fuel for
structural recursion; `n + 1` fuel always suffices. -/
def natDecAux : Nat → Nat → List Char
  | 0, _ => []
  | fuel+1, n =>
    if n < 10 then [Char.ofNat (48 + n)]
    else natDecAux fuel (n / 10) ++ [Char.ofNat (48 + n % 10)]

/-- The decimal rendering of a natural number, as produced by Python
string formatting. -/
def natDec (n : Nat) : String := ⟨natDecAux (n + 1) n⟩

/-- The synthetic output alias for generic field number n, Python
`'f%s_' % n`. -/
def genericName (n : Nat) : String := "f" ++ natDec n ++ "_"

/-- The alias a select field proposes (Compiler.field_alias): the explicit
alias if given, else the column name for a bare column reference, else
none. -/
def field_alias (select_field : TqAst.SelectField) : Option String :=
  match select_field.aliasName with
  | some a => some a
  | none =>
    match select_field.expr with
    | .columnId name => some name
    | _ => none

/-- The first loop of Compiler.get_aliases: walk the proposed aliases
collecting the non-None ones into `used_aliases`, failing on a duplicate
with the Ambiguous-kind CompileError. -/
def checkDupAliases : List (Option String) → List String → Except Err (List String)
  | [], used => .ok used
  | none :: rest, used => checkDupAliases rest used
  | some a :: rest, used =>
    if a ∈ used then .error (.compileError ("Ambiguous column name " ++ a ++ "."))
    else checkDupAliases rest (a :: used)

/-- The while loop of Compiler.get_aliases advancing generic_field_num past
names in used_aliases; `used.length + 1` fuel always suffices because the
candidate names are pairwise distinct. -/
def findGeneric (used : List String) : Nat → Nat → Nat
  | 0, c => c
  | fuel+1, c => if genericName c ∈ used then findGeneric used fuel (c + 1) else c

/-- The second loop of Compiler.get_aliases: keep proposed aliases, and give
each unaliased field the next synthetic name `f<N>_` not taken by an
explicit alias, advancing the counter past every assigned number. -/
def assignAliases (used : List String) : List (Option String) → Nat → List String
  | [], _ => []
  | some a :: rest, c => a :: assignAliases used rest c
  | none :: rest, c =>
    let n := findGeneric used (used.length + 1) c
    genericName n :: assignAliases used rest (n + 1)

/-- Compiler.get_aliases: the output aliases for a select-field list. -/
def get_aliases (select_field_list : List TqAst.SelectField) :
    Except Err (List String) := do
  let proposed_aliases := select_field_list.map field_alias
  let used_aliases ← checkDupAliases proposed_aliases []
  .ok (assignAliases used_aliases proposed_aliases 0)

mutual
/-- Compiler.expression_contains_aggregate: whether an uncompiled expression
transitively contains an aggregate function call.  The source's trailing
`assert False` branch is unreachable because the expression node family is
closed. -/
def expression_contains_aggregate (R : Registry) : TqAst.Expr → Bool
  | .unaryOperator _ e => expression_contains_aggregate R e
  | .binaryOperator _ l r =>
    expression_contains_aggregate R l || expression_contains_aggregate R r
  | .functionCall name args =>
    R.is_aggregate_func name || any_contains_aggregate R args
  | .literal _ => false
  | .columnId _ => false

/-- The `any(...)` generator over a function call's arguments in
Compiler.expression_contains_aggregate. -/
def any_contains_aggregate (R : Registry) : List TqAst.Expr → Bool
  | [] => false
  | e :: es => expression_contains_aggregate R e || any_contains_aggregate R es
end

/-- Compiler.is_innermost_aggregate: an aggregate function call none of whose
arguments contain an aggregate call. -/
def is_innermost_aggregate (R : Registry) : TqAst.Expr → Bool
  | .functionCall name args =>
    R.is_aggregate_func name && !(any_contains_aggregate R args)
  | _ => false

mutual
/-- Compiler.find_column_references: an ordered mapping
`(table, column) → type` of the columns a compiled expression reads.  The
source's trailing `assert False` branch is unreachable because the typed
expression family is closed. -/
def find_column_references : TypedAst.Expr → List ((Option String × String) × TQType)
  | .functionCall _ args _ => find_column_references_args [] args
  | .aggregateFunctionCall _ args _ => find_column_references_args [] args
  | .columnRef r => [((r.table, r.column), r.type)]
  | .literal _ _ => []

/-- The argument loop of Compiler.find_column_references, accumulating with
OrderedDict.update. -/
def find_column_references_args
    (acc : List ((Option String × String) × TQType)) :
    List TypedAst.Expr → List ((Option String × String) × TQType)
  | [] => acc
  | e :: es => find_column_references_args (odUpdate acc (find_column_references e)) es
end

/-- Compiler.find_used_column_context: the type context of all columns
accessed by the given compiled select fields, used as the implicit column
context of the result. -/
def find_used_column_context (select_field_list : List TypedAst.SelectField) :
    TypeContext :=
  TypeContext.from_full_columns
    (select_field_list.foldl
      (fun acc f => odUpdate acc (find_column_references f.expr)) [])
    none none

/-- Compiler.compile_Literal: infer the type from the literal's value family.
The source checks bool before int because Python booleans are integers; the
embedded value families are disjoint, and the NotImplementedError branch is
unreachable because the family is closed. -/
def compile_Literal (value : LitVal) : TypedAst.Expr :=
  match value with
  | .bool b => .literal (.bool b) .bool
  | .int n => .literal (.int n) .int
  | .float s => .literal (.float s) .float
  | .str s => .literal (.str s) .string
  | .null => .literal .null .nonetype

/-- Compiler.compile_ColumnId: resolve the name against the context.  The
source returns the ColumnRef produced by the context directly. -/
def compile_ColumnId (name : String) (type_ctx : TypeContext) :
    Except Err TypedAst.Expr :=
  (type_ctx.column_ref_for_name name).map .columnRef

/-- Modelled from the spec: the string values of the tq_types type names, used
when formatting the argument-type list in a type error message. -/
def typeName : TQType → String
  | .bool => "bool"
  | .int => "int"
  | .float => "float"
  | .string => "string"
  | .nonetype => "none"

/-- The argument-type list as rendered into the CompileError message of
Compiler.compile_FunctionCall (the Python repr quotation marks around each
name are not reproduced). -/
def typeListStr (ts : List TQType) : String :=
  "[" ++ String.intercalate ", " (ts.map typeName) ++ "]"

mutual
/-- Compiler.compile_expr together with the per-node-kind handlers it
dispatches to (compile_ColumnId, compile_Literal, compile_UnaryOperator,
compile_BinaryOperator, compile_FunctionCall).  In compile_UnaryOperator and
compile_BinaryOperator the registry's type-check failure is NOT caught, so
it escapes as a Python TypeError; in compile_FunctionCall it is caught and
re-raised as a CompileError naming the function and the argument types.  An
innermost aggregate call compiles its arguments against the ambient
aggregate context and becomes an AggregateFunctionCall; without an ambient
aggregate context it is a CompileError. -/
def compile_expr (R : Registry) : TqAst.Expr → TypeContext → Except Err TypedAst.Expr
  | .columnId name, type_ctx => compile_ColumnId name type_ctx
  | .literal v, _ => .ok (compile_Literal v)
  | .unaryOperator op e, type_ctx => do
    let func ← R.get_unary_op op
    let compiled_val ← compile_expr R e type_ctx
    match func.check_types [compiled_val.type] with
    | some result_type => .ok (.functionCall func.name [compiled_val] result_type)
    | none => .error (.pyTypeError ("check_types " ++ func.name))
  | .binaryOperator op l r, type_ctx => do
    let func ← R.get_binary_op op
    let compiled_left ← compile_expr R l type_ctx
    let compiled_right ← compile_expr R r type_ctx
    match func.check_types [compiled_left.type, compiled_right.type] with
    | some result_type =>
      .ok (.functionCall func.name [compiled_left, compiled_right] result_type)
    | none => .error (.pyTypeError ("check_types " ++ func.name))
  | .functionCall name args, type_ctx =>
    if is_innermost_aggregate R (.functionCall name args) then
      match type_ctx.aggregate_context with
      | none => .error (.compileError "Unexpected aggregate function.")
      | some sub_expr_ctx => do
        let func ← R.get_func name
        let compiled_args ← compile_expr_list R args sub_expr_ctx
        match func.check_types (compiled_args.map TypedAst.Expr.type) with
        | some result_type =>
          .ok (.aggregateFunctionCall func.name compiled_args result_type)
        | none =>
          .error (.compileError ("Invalid types for function " ++ name ++ ": "
            ++ typeListStr (compiled_args.map TypedAst.Expr.type)))
    else do
      let func ← R.get_func name
      let compiled_args ← compile_expr_list R args type_ctx
      match func.check_types (compiled_args.map TypedAst.Expr.type) with
      | some result_type => .ok (.functionCall func.name compiled_args result_type)
      | none =>
        .error (.compileError ("Invalid types for function " ++ name ++ ": "
          ++ typeListStr (compiled_args.map TypedAst.Expr.type)))

/-- The argument list comprehension of Compiler.compile_FunctionCall. -/
def compile_expr_list (R : Registry) :
    List TqAst.Expr → TypeContext → Except Err (List TypedAst.Expr)
  | [], _ => .ok []
  | e :: es, ctx => do
    let c ← compile_expr R e ctx
    let cs ← compile_expr_list R es ctx
    .ok (c :: cs)
end

/-- Compiler.compile_where_expr: compile the WHERE expression, defaulting to
the literal true when it is absent. -/
def compile_where_expr (R : Registry) (where_expr : Option TqAst.Expr)
    (table_ctx : TypeContext) : Except Err TypedAst.Expr :=
  match where_expr with
  | some e => compile_expr R e table_ctx
  | none => .ok (.literal (.bool true) .bool)

/-- Compiler.compile_select_field. -/
def compile_select_field (R : Registry) (expr : TqAst.Expr) (aliasName : String)
    (type_ctx : TypeContext) : Except Err TypedAst.SelectField := do
  let compiled_expr ← compile_expr R expr type_ctx
  .ok ⟨compiled_expr, aliasName⟩

/-- The CompileError message for a malformed join condition.  The source
appends the repr of the offending expression, which is not reproduced. -/
def joinCondMsg : String :=
  "JOIN conditions must consist of an AND of = comparisons."

/-- Python str.startswith: a computable prefix test on the underlying
character lists. -/
def pyStartswith (s pre : String) : Bool := pre.data.isPrefixOf s.data

/-- The `=`-comparison case of Compiler.compile_join_fields: both sides must
be column references; the pair defaults to (left of `=`, right of `=`) order
but is swapped whenever a name's qualifier prefix indicates the reverse, and
then its first component resolves against the first table's context and its
second against the second's.  The resolution is the source's
compile_ColumnId, whose result ColumnRef is stored directly in
JoinFields. -/
def compile_join_field_eq (type_ctx1 type_ctx2 : TypeContext)
    (alias1 alias2 : String) :
    TqAst.Expr → TqAst.Expr → Except Err (List TypedAst.JoinFields)
  | .columnId n1, .columnId n2 =>
    let p :=
      if pyStartswith n1 (alias2 ++ ".") || pyStartswith n2 (alias1 ++ ".")
      then (n2, n1) else (n1, n2)
    do
      let column_ref1 ← type_ctx1.column_ref_for_name p.1
      let column_ref2 ← type_ctx2.column_ref_for_name p.2
      .ok [⟨column_ref1, column_ref2⟩]
  | _, _ => .error (.compileError joinCondMsg)

/-- Compiler.compile_join_fields, outer traversal: an `and` recurses into both
sides; an `=` is handled by the equality case above; anything else raises
the malformed-condition CompileError. -/
def compile_join_fields (type_ctx1 type_ctx2 : TypeContext)
    (alias1 alias2 : String) : TqAst.Expr → Except Err (List TypedAst.JoinFields)
  | .binaryOperator op l r =>
    if op = "and" then do
      let f1 ← compile_join_fields type_ctx1 type_ctx2 alias1 alias2 l
      let f2 ← compile_join_fields type_ctx1 type_ctx2 alias1 alias2 r
      .ok (f1 ++ f2)
    else if op = "=" then
      compile_join_field_eq type_ctx1 type_ctx2 alias1 alias2 l r
    else .error (.compileError joinCondMsg)
  | _ => .error (.compileError joinCondMsg)

/-- Compiler.compile_groups: with no GROUP BY, an aggregate select gets the
trivial GroupSet and a non-aggregate select gets no grouping; with explicit
groups, each name matching a select-field alias becomes an alias group and
every other name is resolved against the table context as a field group. -/
def compile_groups (R : Registry) (groups : Option (List String))
    (select_fields : List TqAst.SelectField) (aliases : List String)
    (table_ctx : TypeContext) : Except Err (Option TypedAst.GroupSet) :=
  match groups with
  | none =>
    if select_fields.any (fun f => expression_contains_aggregate R f.expr)
    then .ok (some TypedAst.TRIVIAL_GROUP_SET)
    else .ok none
  | some gs => do
    let res ← gs.foldlM
      (fun (acc : List String × List TypedAst.ColumnRef) g =>
        if g ∈ aliases then
          .ok (if g ∈ acc.1 then acc.1 else acc.1 ++ [g], acc.2)
        else do
          let cr ← table_ctx.column_ref_for_name g
          .ok (acc.1, acc.2 ++ [cr]))
      ([], [])
    .ok (some ⟨res.1, res.2⟩)

/-- Compiler.compile_group_fields: compile the grouped select fields against
the table context, and build the aggregate context from the field-group
columns plus the grouped output columns, with the table context attached as
its ambient aggregate context. -/
def compile_group_fields (R : Registry) (select_fields : List TqAst.SelectField)
    (aliases : List String) (group_set : Option TypedAst.GroupSet)
    (table_ctx : TypeContext) :
    Except Err (List (String × TypedAst.SelectField) × TypeContext) := do
  let group_columns : List ((Option String × String) × TQType) :=
    match group_set with
    | some gs =>
      gs.field_groups.foldl
        (fun acc fg => odInsert acc (fg.table, fg.column) fg.type) []
    | none => []
  let res ← (aliases.zip select_fields).foldlM
    (fun (acc : List (String × TypedAst.SelectField)
              × List ((Option String × String) × TQType)) p =>
      match group_set with
      | none => do
        let f ← compile_select_field R p.2.expr p.1 table_ctx
        .ok (odInsert acc.1 p.1 f, odInsert acc.2 (none, p.1) f.expr.type)
      | some gs =>
        if p.1 ∈ gs.alias_groups then do
          let f ← compile_select_field R p.2.expr p.1 table_ctx
          .ok (odInsert acc.1 p.1 f, odInsert acc.2 (none, p.1) f.expr.type)
        else .ok acc)
    ([], group_columns)
  .ok (res.1, TypeContext.from_full_columns res.2 (some table_ctx) none)

/-- The loop body of Compiler.expand_select_fields building one star-expansion
field from one context column: a qualified reference string, and an alias
that is `qualifier.name` when the table expression is a join (where a
missing qualifier would make the source's string concatenation raise a
Python TypeError) and the bare column name otherwise. -/
def star_select_field (table_expr : TypedAst.TableExpression)
    (e : (Option String × String) × TQType) : Except Err TqAst.SelectField := do
  let col_ref := match e.1.1 with
    | some t => t ++ "." ++ e.1.2
    | none => e.1.2
  let aliasName ← match table_expr with
    | .join _ _ _ _ _ =>
      match e.1.1 with
      | some t => Except.ok (t ++ "." ++ e.1.2)
      | none =>
        Except.error
          (Err.pyTypeError "unsupported operand types for +: NoneType and str")
    | _ => Except.ok e.1.2
  Except.ok (⟨.columnId col_ref, some aliasName⟩ : TqAst.SelectField)

/-- Compiler.expand_select_fields, second half: the star-expansion fields are
built from every column of the table context unconditionally, and then each
`*` in the select list is replaced by that whole list. -/
def expand_select_fields (select_fields : List TqAst.SelectItem)
    (table_expr : TypedAst.TableExpression) :
    Except Err (List TqAst.SelectField) := do
  let star_select_fields ← table_expr.type_ctx.columns.mapM (star_select_field table_expr)
  .ok (select_fields.flatMap
    (fun item => match item with
      | .star => star_select_fields
      | .field f => [f]))

/-- The alias attribute of an untyped table expression.  Only tq_ast.TableId
and tq_ast.Select carry one; reading it on any other node raises a Python
AttributeError. -/
def tq_table_expr_alias : TqAst.TableExpr → Except Err (Option String)
  | .tableId _ a => .ok a
  | .select s => .ok s.aliasName
  | _ => .error (.attributeError "alias")

/-- Compiler.compile_table_ref: a base table's columns under the explicit or
default alias become the context. -/
def compile_table_ref (name : String) (aliasOpt : Option String)
    (columns : List (String × TQType)) : TypedAst.TableExpression :=
  let aliasName := aliasOpt.getD name
  .table name (TypeContext.from_table_and_columns (some aliasName) columns none)

end Compiler

end TinyQuery

namespace TinyQuery

namespace Compiler

mutual
/-- Compiler.compile_select: the top-level pipeline — compile the table
expression, the WHERE filter (defaulting to literal true), expand stars, get
output aliases, determine the group set, compile grouped fields against the
table context building the aggregate context, record the implicit column
context, compile the remaining fields against the aggregate context, and
reassemble the fields in alias order with the result context.  The fuel
parameter bounds recursion through view expansion, which the source leaves
unbounded. -/
def compile_select (R : Registry) (cat : Catalog) :
    Nat → TqAst.Select → Except Err TypedAst.Select
  | 0, _ => .error .outOfFuel
  | fuel+1, s => do
    let table_expr ← compile_table_expr R cat fuel s.table_expr
    let table_ctx := table_expr.type_ctx
    let where_expr ← compile_where_expr R s.where_expr table_ctx
    let select_fields ← expand_select_fields s.select_fields table_expr
    let aliases ← get_aliases select_fields
    let group_set ← compile_groups R s.groups select_fields aliases table_ctx
    let gf ← compile_group_fields R select_fields aliases group_set table_ctx
    let aggregate_context := gf.2
    let implicit_column_context :=
      find_used_column_context (gf.1.map (fun p => p.2))
    let compiled_field_dict ← (aliases.zip select_fields).foldlM
      (fun d p =>
        match group_set with
        | some gs =>
          if p.1 ∈ gs.alias_groups then .ok d
          else do
            let f ← compile_select_field R p.2.expr p.1 aggregate_context
            .ok (odInsert d p.1 f)
        | none => .ok d)
      gf.1
    let ordered_fields ← aliases.mapM
      (fun a =>
        match odGet compiled_field_dict a with
        | some f => Except.ok f
        | none => Except.error (Err.keyError a))
    let result_context := TypeContext.from_table_and_columns none
      (odFromPairs (ordered_fields.map (fun f => (f.aliasName, f.expr.type))))
      (some implicit_column_context)
    .ok (.mk ordered_fields table_expr where_expr group_set s.limit result_context)

/-- Compiler.compile_table_expr: None means no table; otherwise dispatch on
the node kind.  The source's dynamic getattr dispatch is total here because
the table-expression family is closed. -/
def compile_table_expr (R : Registry) (cat : Catalog) :
    Nat → Option TqAst.TableExpr → Except Err TypedAst.TableExpression
  | 0, _ => .error .outOfFuel
  | _+1, none => .ok .noTable
  | fuel+1, some te =>
    match te with
    | .tableId name a => compile_table_expr_TableId R cat fuel name a
    | .tableUnion ts => compile_table_expr_TableUnion R cat fuel ts
    | .crossJoin t1 t2 => compile_table_expr_CrossJoin R cat fuel t1 t2
    | .join t1 t2 cond outer => compile_table_expr_Join R cat fuel t1 t2 cond outer
    | .select sub => compile_table_expr_Select R cat fuel sub

/-- Compiler.compile_table_expr_TableId: `self.tables_by_name[name]` is a
Python dict lookup, so a name with no catalog entry raises KeyError; a base
table is compiled directly and a view is recursively compiled. -/
def compile_table_expr_TableId (R : Registry) (cat : Catalog) :
    Nat → String → Option String → Except Err TypedAst.TableExpression
  | 0, _, _ => .error .outOfFuel
  | fuel+1, name, a =>
    match dictFind cat name with
    | none => .error (.keyError name)
    | some (.table columns) => .ok (compile_table_ref name a columns)
    | some (.view q) => compile_view_ref R cat fuel name a q

/-- Compiler.compile_view_ref: recursively compile the view's stored query and
re-qualify the whole result context with the view's alias or name. -/
def compile_view_ref (R : Registry) (cat : Catalog) :
    Nat → String → Option String → TqAst.Select → Except Err TypedAst.TableExpression
  | 0, _, _, _ => .error .outOfFuel
  | fuel+1, name, a, q => do
    let aliasName := a.getD name
    let compiled_view_select ← compile_select R cat fuel q
    let new_type_context :=
      TypeContext.context_with_full_alias compiled_view_select.type_ctx aliasName
    .ok (.select (compiled_view_select.with_type_ctx new_type_context))

/-- Compiler.compile_table_expr_TableUnion: compile each side and take the
column-name union of their contexts. -/
def compile_table_expr_TableUnion (R : Registry) (cat : Catalog) :
    Nat → List TqAst.TableExpr → Except Err TypedAst.TableExpression
  | 0, _ => .error .outOfFuel
  | fuel+1, ts => do
    let compiled_tables ← ts.mapM (fun t => compile_table_expr R cat fuel (some t))
    let type_ctx ←
      TypeContext.union_contexts (compiled_tables.map TypedAst.TableExpression.type_ctx)
    .ok (.tableUnion compiled_tables type_ctx)

/-- Compiler.compile_joined_table: compile one side of a JOIN, derive its
alias (the explicit alias, else the table name for a bare table reference,
else a CompileError — and reading the alias attribute of a node kind that
has none raises AttributeError), and re-qualify its whole context with that
alias. -/
def compile_joined_table (R : Registry) (cat : Catalog) :
    Nat → TqAst.TableExpr → Except Err (TypedAst.TableExpression × String)
  | 0, _ => .error .outOfFuel
  | fuel+1, te => do
    let compiled_table ← compile_table_expr R cat fuel (some te)
    let aliasOpt ← tq_table_expr_alias te
    let aliasName ← match aliasOpt with
      | some a => Except.ok a
      | none =>
        match te with
        | .tableId name _ => Except.ok name
        | _ => Except.error (Err.compileError "Table expression must have an alias name.")
    let result_ctx := TypeContext.context_with_full_alias compiled_table.type_ctx aliasName
    let compiled_table ← compiled_table.with_type_ctx result_ctx
    .ok (compiled_table, aliasName)

/-- Compiler.compile_table_expr_CrossJoin: both sides re-qualified by their
aliases, joined with an empty equi-condition list. -/
def compile_table_expr_CrossJoin (R : Registry) (cat : Catalog) :
    Nat → TqAst.TableExpr → TqAst.TableExpr → Except Err TypedAst.TableExpression
  | 0, _, _ => .error .outOfFuel
  | fuel+1, t1, t2 => do
    let p1 ← compile_joined_table R cat fuel t1
    let p2 ← compile_joined_table R cat fuel t2
    let result_type_ctx := TypeContext.join_contexts [p1.1.type_ctx, p2.1.type_ctx]
    .ok (.join p1.1 p2.1 [] false result_type_ctx)

/-- Compiler.compile_table_expr_Join: as the cross join, plus the join-field
pairs decomposed from the ON condition. -/
def compile_table_expr_Join (R : Registry) (cat : Catalog) :
    Nat → TqAst.TableExpr → TqAst.TableExpr → TqAst.Expr → Bool →
    Except Err TypedAst.TableExpression
  | 0, _, _, _, _ => .error .outOfFuel
  | fuel+1, t1, t2, cond, is_left_outer => do
    let p1 ← compile_joined_table R cat fuel t1
    let p2 ← compile_joined_table R cat fuel t2
    let result_fields ←
      compile_join_fields p1.1.type_ctx p2.1.type_ctx p1.2 p2.2 cond
    let result_type_ctx := TypeContext.join_contexts [p1.1.type_ctx, p2.1.type_ctx]
    .ok (.join p1.1 p2.1 result_fields is_left_outer result_type_ctx)

/-- Compiler.compile_table_expr_Select: recursively compile the subquery; an
alias re-qualifies its result context with subquery-alias rules. -/
def compile_table_expr_Select (R : Registry) (cat : Catalog) :
    Nat → TqAst.Select → Except Err TypedAst.TableExpression
  | 0, _ => .error .outOfFuel
  | fuel+1, sub => do
    let select_result ← compile_select R cat fuel sub
    match sub.aliasName with
    | some a =>
      .ok (.select (select_result.with_type_ctx
        (TypeContext.context_with_subquery_alias select_result.type_ctx a)))
    | none => .ok (.select select_result)
end

end Compiler

end TinyQuery

namespace TinyQuery

/-- Modelled from the spec: a small concrete function registry carrying the
operators and functions the repository's tests exercise, with the signatures
the BigQuery-mimicking runtime gives them; used to instantiate theorems at
concrete inputs. -/
def sampleRegistry : Registry where
  unary_ops := [("-", fun ts => match ts with | [.int] => some .int | _ => none)]
  binary_ops :=
    [("+", fun ts => match ts with | [.int, .int] => some .int | _ => none),
     ("-", fun ts => match ts with | [.int, .int] => some .int | _ => none),
     ("*", fun ts => match ts with | [.int, .int] => some .int | _ => none),
     (">", fun ts => match ts with | [.int, .int] => some .bool | _ => none),
     ("=", fun ts => match ts with | [.int, .int] => some .bool | _ => none),
     ("and", fun ts => match ts with | [.bool, .bool] => some .bool | _ => none)]
  functions :=
    [("abs", fun ts => match ts with | [.int] => some .int | _ => none),
     ("pow", fun ts => match ts with | [.int, .int] => some .int | _ => none),
     ("now", fun ts => match ts with | [] => some .int | _ => none),
     ("max", fun ts => match ts with | [.int] => some .int | _ => none),
     ("min", fun ts => match ts with | [.int] => some .int | _ => none),
     ("sum", fun ts => match ts with | [.int] => some .int | _ => none),
     ("count", fun ts => match ts with | [_] => some .int | _ => none)]
  aggregates := ["max", "min", "sum", "count"]

/-- A concrete catalog mirroring the repository's test fixtures: table1 with
int columns value, value2 and table2 with int columns value, value3. -/
def sampleCatalog : Catalog :=
  [("table1", .table [("value", .int), ("value2", .int)]),
   ("table2", .table [("value", .int), ("value3", .int)])]

/-- The type context of table1 under its own name. -/
def table1Ctx : TypeContext :=
  TypeContext.from_table_and_columns (some "table1")
    [("value", .int), ("value2", .int)] none

/-- An aggregate-capable context: no own columns, with table1's context
attached as the ambient aggregate context. -/
def aggCtxSample : TypeContext := .mk [] (some table1Ctx) none

/-- Inversion for a successful Except bind. -/
theorem bindOk {α β : Type} {x : Except Err α} {f : α → Except Err β} {b : β}
    (h : x >>= f = .ok b) : ∃ a, x = .ok a ∧ f a = .ok b := by
  cases x with
  | ok a => exact ⟨a, rfl, h⟩
  | error e => exact Except.noConfusion h

/-- A monadic map by a function that succeeds pointwise succeeds with the
pointwise results. -/
theorem mapM_ok_of {α β : Type} {l : List α} {f : α → Except Err β} {g : α → β}
    (h : ∀ e ∈ l, f e = .ok (g e)) : l.mapM f = .ok (l.map g) := by
  induction l with
  | nil => rfl
  | cons e es ih =>
    rw [List.mapM_cons, h e (by simp)]
    rw [show es.mapM f = .ok (es.map g) from ih (fun x hx => h x (by simp [hx]))]
    rfl

namespace Compiler

/-- C9: with no WHERE clause the compiled filter expression is exactly the
boolean literal true; a present WHERE clause is compiled against the table
context; and accordingly every successfully compiled Select of a query
without a WHERE clause carries the boolean literal true as its filter. -/
theorem claim_c9_where_default :
    (∀ (R : Registry) (ctx : TypeContext),
      compile_where_expr R none ctx = .ok (.literal (.bool true) .bool)) ∧
    (∀ (R : Registry) (ctx : TypeContext) (e : TqAst.Expr),
      compile_where_expr R (some e) ctx = compile_expr R e ctx) ∧
    (∀ (R : Registry) (cat : Catalog) (fuel : Nat) (s : TqAst.Select)
        (sel : TypedAst.Select), s.where_expr = none →
      compile_select R cat fuel s = .ok sel →
      sel.where_expr = .literal (.bool true) .bool) := by
  refine ⟨fun R ctx => rfl, fun R ctx e => rfl, ?_⟩
  intro R cat fuel s sel hw h
  match fuel with
  | 0 => exact Except.noConfusion h
  | fuel+1 =>
    rw [compile_select] at h
    obtain ⟨te, hte, h⟩ := bindOk h
    rw [hw] at h
    obtain ⟨w, hwe, h⟩ := bindOk h
    obtain ⟨sf, hsf, h⟩ := bindOk h
    obtain ⟨al, hal, h⟩ := bindOk h
    obtain ⟨gs, hgs, h⟩ := bindOk h
    obtain ⟨gf, hgf, h⟩ := bindOk h
    obtain ⟨cfd, hcfd, h⟩ := bindOk h
    obtain ⟨ord, hord, h⟩ := bindOk h
    cases h
    cases hwe
    rfl

end Compiler

/-- The query SELECT 1 (no table, no WHERE clause). -/
def selectOneQuery : TqAst.Select :=
  .mk [.field ⟨.literal (.int 1), none⟩] none none none none none

/-- The compiled form of SELECT 1. -/
def selectOneCompiled : TypedAst.Select :=
  .mk [⟨.literal (.int 1) .int, "f0_"⟩] .noTable (.literal (.bool true) .bool)
    none none (.mk [((none, "f0_"), .int)] none (some (.mk [] none none)))

namespace Compiler

/-- Witness for C9 at the concrete query SELECT 1. -/
theorem claim_c9_witness :
    compile_select sampleRegistry sampleCatalog 2 selectOneQuery
        = .ok selectOneCompiled ∧
    selectOneCompiled.where_expr = .literal (.bool true) .bool :=
  ⟨rfl, claim_c9_where_default.2.2 sampleRegistry sampleCatalog 2 selectOneQuery
    selectOneCompiled rfl rfl⟩

/-- C7 counterexample: a query over a table name with no catalog entry fails
with a Python KeyError escaping the compiler, not with the compiler's own
error type. -/
theorem claim_c7_counterexample :
    compile_select sampleRegistry sampleCatalog 5
      (.mk [.field ⟨.columnId "value", none⟩] (some (.tableId "nosuch" none))
        none none none none)
      = .error (.keyError "nosuch") := rfl

/-- C7 (amended): a table name with no match in the catalog makes compilation
fail with a KeyError from the Python dict lookup `self.tables_by_name[name]`
— an unclassified foreign exception, not the single compile-error type. -/
theorem claim_c7_missing_table :
    ∀ (R : Registry) (cat : Catalog) (fuel : Nat) (name : String)
      (a : Option String), dictFind cat name = none →
      compile_table_expr_TableId R cat (fuel + 1) name a =
        .error (.keyError name) := by
  intro R cat fuel name a h
  rw [compile_table_expr_TableId, h]

/-- Witness for C7 at the concrete missing name "nosuch". -/
theorem claim_c7_witness :
    dictFind sampleCatalog "nosuch" = none ∧
    compile_table_expr_TableId sampleRegistry sampleCatalog 5 "nosuch" none =
      .error (.keyError "nosuch") :=
  ⟨rfl, claim_c7_missing_table sampleRegistry sampleCatalog 4 "nosuch" none rfl⟩

end Compiler

end TinyQuery

namespace TinyQuery

namespace Compiler

/-- C4: an innermost aggregate function call compiled where the context
carries no ambient aggregate context fails with the UnboundAggregate-kind
CompileError; with an ambient aggregate context available, its arguments are
compiled against that aggregate context and the node is built as an
AggregateFunctionCall. -/
theorem claim_c4_unbound_aggregate :
    ∀ (R : Registry) (name : String) (args : List TqAst.Expr) (ctx : TypeContext),
      is_innermost_aggregate R (.functionCall name args) = true →
      (ctx.aggregate_context = none →
        compile_expr R (.functionCall name args) ctx =
          .error (.compileError "Unexpected aggregate function.")) ∧
      (∀ aggCtx, ctx.aggregate_context = some aggCtx →
        ∀ te, compile_expr R (.functionCall name args) ctx = .ok te →
          ∃ compiled_args result_type,
            compile_expr_list R args aggCtx = .ok compiled_args ∧
            te = .aggregateFunctionCall name compiled_args result_type) := by
  intro R name args ctx hagg
  constructor
  · intro hnone
    rw [compile_expr, if_pos hagg, hnone]
  · intro aggCtx hsome te h
    rw [compile_expr, if_pos hagg, hsome] at h
    obtain ⟨func, hfunc, h⟩ := bindOk h
    obtain ⟨cargs, hcargs, h⟩ := bindOk h
    have hname : func.name = name := by
      unfold Registry.get_func at hfunc
      cases hf : R.functions.find? (fun p => p.1 == name) with
      | none => rw [hf] at hfunc; exact Except.noConfusion hfunc
      | some p =>
        rw [hf] at hfunc
        cases hfunc
        simpa using List.find?_some hf
    cases hct : func.check_types (cargs.map TypedAst.Expr.type) with
    | some rt =>
      rw [hct] at h
      cases h
      exact ⟨cargs, rt, hcargs, by rw [hname]⟩
    | none => rw [hct] at h; exact Except.noConfusion h

/-- Witness for C4 at the concrete call max(value): rejected against table1's
plain context, accepted as an AggregateFunctionCall against a context whose
ambient aggregate context is table1's. -/
theorem claim_c4_witness :
    is_innermost_aggregate sampleRegistry (.functionCall "max" [.columnId "value"]) = true ∧
    table1Ctx.aggregate_context = none ∧
    compile_expr sampleRegistry (.functionCall "max" [.columnId "value"]) table1Ctx =
      .error (.compileError "Unexpected aggregate function.") ∧
    aggCtxSample.aggregate_context = some table1Ctx ∧
    (∃ compiled_args result_type,
      compile_expr_list sampleRegistry [.columnId "value"] table1Ctx = .ok compiled_args ∧
      (TypedAst.Expr.aggregateFunctionCall "max"
          [.columnRef ⟨some "table1", "value", .int⟩] .int) =
        .aggregateFunctionCall "max" compiled_args result_type) :=
  ⟨rfl, rfl,
   (claim_c4_unbound_aggregate sampleRegistry "max" [.columnId "value"] table1Ctx rfl).1 rfl,
   rfl,
   (claim_c4_unbound_aggregate sampleRegistry "max" [.columnId "value"] aggCtxSample rfl).2
     table1Ctx rfl
     (.aggregateFunctionCall "max" [.columnRef ⟨some "table1", "value", .int⟩] .int) rfl⟩

/-- C1 counterexample: a binary operator whose type-check rejects its argument
types makes compilation fail with the registry's Python TypeError escaping
uncaught — not with the single compile-error type, and without the message
naming the function and argument types. -/
theorem claim_c1_counterexample :
    compile_expr sampleRegistry
      (.binaryOperator "+" (.literal (.int 1)) (.literal (.str "a")))
      (.mk [] none none) = .error (.pyTypeError "check_types +") := rfl

/-- C1 (amended): only for function calls is a type-check rejection reported
as the single compile-error type with the function name and the offending
argument types; for binary and unary operators the rejection escapes as the
registry's uncaught Python TypeError. -/
theorem claim_c1_type_error_reporting :
    (∀ (R : Registry) (name : String) (args : List TqAst.Expr) (ctx : TypeContext)
        (func : TQFunction) (cargs : List TypedAst.Expr),
      is_innermost_aggregate R (.functionCall name args) = false →
      R.get_func name = .ok func →
      compile_expr_list R args ctx = .ok cargs →
      func.check_types (cargs.map TypedAst.Expr.type) = none →
      compile_expr R (.functionCall name args) ctx =
        .error (.compileError ("Invalid types for function " ++ name ++ ": "
          ++ typeListStr (cargs.map TypedAst.Expr.type)))) ∧
    (∀ (R : Registry) (op : String) (l r : TqAst.Expr) (ctx : TypeContext)
        (func : TQFunction) (cl cr : TypedAst.Expr),
      R.get_binary_op op = .ok func →
      compile_expr R l ctx = .ok cl →
      compile_expr R r ctx = .ok cr →
      func.check_types [cl.type, cr.type] = none →
      compile_expr R (.binaryOperator op l r) ctx =
        .error (.pyTypeError ("check_types " ++ func.name))) ∧
    (∀ (R : Registry) (op : String) (e : TqAst.Expr) (ctx : TypeContext)
        (func : TQFunction) (cv : TypedAst.Expr),
      R.get_unary_op op = .ok func →
      compile_expr R e ctx = .ok cv →
      func.check_types [cv.type] = none →
      compile_expr R (.unaryOperator op e) ctx =
        .error (.pyTypeError ("check_types " ++ func.name))) := by
  refine ⟨?_, ?_, ?_⟩
  · intro R name args ctx func cargs hfalse hfunc hargs hct
    rw [compile_expr, if_neg (by simp [hfalse]), hfunc]
    show compile_expr_list R args ctx >>= _ = _
    rw [hargs]
    show (match func.check_types (cargs.map TypedAst.Expr.type) with
      | some result_type =>
        Except.ok (TypedAst.Expr.functionCall func.name cargs result_type)
      | none => Except.error (Err.compileError ("Invalid types for function " ++ name ++ ": "
          ++ typeListStr (cargs.map TypedAst.Expr.type)))) = _
    rw [hct]
  · intro R op l r ctx func cl cr hfunc hl hr hct
    rw [compile_expr, hfunc]
    show compile_expr R l ctx >>= _ = _
    rw [hl]
    show compile_expr R r ctx >>= _ = _
    rw [hr]
    show (match func.check_types [cl.type, cr.type] with
      | some result_type =>
        Except.ok (TypedAst.Expr.functionCall func.name [cl, cr] result_type)
      | none => Except.error (Err.pyTypeError ("check_types " ++ func.name))) = _
    rw [hct]
  · intro R op e ctx func cv hfunc he hct
    rw [compile_expr, hfunc]
    show compile_expr R e ctx >>= _ = _
    rw [he]
    show (match func.check_types [cv.type] with
      | some result_type =>
        Except.ok (TypedAst.Expr.functionCall func.name [cv] result_type)
      | none => Except.error (Err.pyTypeError ("check_types " ++ func.name))) = _
    rw [hct]

end Compiler

end TinyQuery

namespace TinyQuery

/-- The registry entry for abs in the sample registry. -/
def absFunc : TQFunction :=
  ⟨"abs", fun ts => match ts with | [.int] => some .int | _ => none⟩

/-- The registry entry for the binary + in the sample registry. -/
def plusFunc : TQFunction :=
  ⟨"+", fun ts => match ts with | [.int, .int] => some .int | _ => none⟩

/-- The registry entry for the unary - in the sample registry. -/
def negFunc : TQFunction :=
  ⟨"-", fun ts => match ts with | [.int] => some .int | _ => none⟩

namespace Compiler

/-- Witness for C1 at concrete rejected calls: abs("a"), 1 + "a" and -"a". -/
theorem claim_c1_witness :
    (is_innermost_aggregate sampleRegistry
        (.functionCall "abs" [.literal (.str "a")]) = false ∧
      sampleRegistry.get_func "abs" = .ok absFunc ∧
      compile_expr_list sampleRegistry [.literal (.str "a")] (.mk [] none none) =
        .ok [.literal (.str "a") .string] ∧
      absFunc.check_types [TQType.string] = none ∧
      compile_expr sampleRegistry (.functionCall "abs" [.literal (.str "a")])
          (.mk [] none none) =
        .error (.compileError "Invalid types for function abs: [string]")) ∧
    (sampleRegistry.get_binary_op "+" = .ok plusFunc ∧
      plusFunc.check_types [TQType.int, TQType.string] = none ∧
      compile_expr sampleRegistry
          (.binaryOperator "+" (.literal (.int 1)) (.literal (.str "a")))
          (.mk [] none none) =
        .error (.pyTypeError "check_types +")) ∧
    (sampleRegistry.get_unary_op "-" = .ok negFunc ∧
      negFunc.check_types [TQType.string] = none ∧
      compile_expr sampleRegistry (.unaryOperator "-" (.literal (.str "a")))
          (.mk [] none none) =
        .error (.pyTypeError "check_types -")) :=
  ⟨⟨rfl, rfl, rfl, rfl,
    claim_c1_type_error_reporting.1 sampleRegistry "abs" [.literal (.str "a")]
      (.mk [] none none) absFunc [.literal (.str "a") .string] rfl rfl rfl rfl⟩,
   ⟨rfl, rfl,
    claim_c1_type_error_reporting.2.1 sampleRegistry "+" (.literal (.int 1))
      (.literal (.str "a")) (.mk [] none none) plusFunc
      (.literal (.int 1) .int) (.literal (.str "a") .string) rfl rfl rfl rfl⟩,
   ⟨rfl, rfl,
    claim_c1_type_error_reporting.2.2 sampleRegistry "-" (.literal (.str "a"))
      (.mk [] none none) negFunc (.literal (.str "a") .string) rfl rfl rfl⟩⟩

end Compiler

end TinyQuery

namespace TinyQuery

namespace Compiler

/-- Whether a compiled table expression is a Join node (the
`isinstance(table_expr, typed_ast.Join)` test of expand_select_fields). -/
def isJoinExpr : TypedAst.TableExpression → Bool
  | .join _ _ _ _ _ => true
  | _ => false

/-- C8: each `*` in the select list expands in place into one field per column
of the compiled table expression's context, in context order; over a join
the expanded alias is `qualifier.name`, and otherwise it is the bare column
name. -/
theorem claim_c8_star_expansion :
    (∀ (items : List TqAst.SelectItem) (te : TypedAst.TableExpression),
      isJoinExpr te = false →
      expand_select_fields items te =
        .ok (items.flatMap (fun item =>
          match item with
          | .star => te.type_ctx.columns.map (fun e =>
              ⟨.columnId (match e.1.1 with
                          | some t => t ++ "." ++ e.1.2
                          | none => e.1.2), some e.1.2⟩)
          | .field f => [f]))) ∧
    (∀ (items : List TqAst.SelectItem) (te : TypedAst.TableExpression),
      isJoinExpr te = true →
      (∀ e ∈ te.type_ctx.columns, e.1.1.isSome) →
      expand_select_fields items te =
        .ok (items.flatMap (fun item =>
          match item with
          | .star => te.type_ctx.columns.map (fun e =>
              ⟨.columnId (match e.1.1 with
                          | some t => t ++ "." ++ e.1.2
                          | none => e.1.2),
               some (e.1.1.getD "" ++ "." ++ e.1.2)⟩)
          | .field f => [f]))) := by
  constructor
  · intro items te hj
    have hsf : ∀ e ∈ te.type_ctx.columns, star_select_field te e =
        .ok ⟨.columnId (match e.1.1 with
                        | some t => t ++ "." ++ e.1.2
                        | none => e.1.2), some e.1.2⟩ := by
      intro e he
      cases te with
      | join _ _ _ _ _ => exact absurd hj (by simp [isJoinExpr])
      | noTable => rfl
      | table _ _ => rfl
      | tableUnion _ _ => rfl
      | select _ => rfl
    rw [expand_select_fields, mapM_ok_of hsf]
    rfl
  · intro items te hj hq
    have hsf : ∀ e ∈ te.type_ctx.columns, star_select_field te e =
        .ok ⟨.columnId (match e.1.1 with
                        | some t => t ++ "." ++ e.1.2
                        | none => e.1.2),
             some (e.1.1.getD "" ++ "." ++ e.1.2)⟩ := by
      intro e he
      obtain ⟨⟨q, nm⟩, ty⟩ := e
      obtain ⟨t, ht⟩ := Option.isSome_iff_exists.mp (hq _ he)
      cases te with
      | join _ _ _ _ _ =>
        have ht2 : q = some t := ht
        subst ht2
        rfl
      | noTable => exact absurd hj (by simp [isJoinExpr])
      | table _ _ => exact absurd hj (by simp [isJoinExpr])
      | tableUnion _ _ => exact absurd hj (by simp [isJoinExpr])
      | select _ => exact absurd hj (by simp [isJoinExpr])
    rw [expand_select_fields, mapM_ok_of hsf]
    rfl

end Compiler

/-- The compiled join of table1 t1 with table2 t2 on t1.value = t2.value. -/
def sampleJoinExpr : TypedAst.TableExpression :=
  .join
    (.table "table1" (.mk [((some "t1", "value"), .int), ((some "t1", "value2"), .int)] none none))
    (.table "table2" (.mk [((some "t2", "value"), .int), ((some "t2", "value3"), .int)] none none))
    [⟨⟨some "t1", "value", .int⟩, ⟨some "t2", "value", .int⟩⟩]
    false
    (.mk [((some "t1", "value"), .int), ((some "t1", "value2"), .int),
          ((some "t2", "value"), .int), ((some "t2", "value3"), .int)] none none)

namespace Compiler

/-- Witness for C8: a star over the sample join expands to the four
qualified-alias fields in context order, and a star over table1 expands to
bare-name aliases in declaration order. -/
theorem claim_c8_witness :
    (isJoinExpr sampleJoinExpr = true ∧
      (∀ e ∈ sampleJoinExpr.type_ctx.columns, e.1.1.isSome) ∧
      expand_select_fields [.star] sampleJoinExpr =
        .ok [⟨.columnId "t1.value", some "t1.value"⟩,
             ⟨.columnId "t1.value2", some "t1.value2"⟩,
             ⟨.columnId "t2.value", some "t2.value"⟩,
             ⟨.columnId "t2.value3", some "t2.value3"⟩]) ∧
    (isJoinExpr (.table "table1" table1Ctx) = false ∧
      expand_select_fields [.star] (.table "table1" table1Ctx) =
        .ok [⟨.columnId "table1.value", some "value"⟩,
             ⟨.columnId "table1.value2", some "value2"⟩]) :=
  ⟨⟨rfl, by decide,
    (claim_c8_star_expansion.2 [.star] sampleJoinExpr rfl (by decide)).trans rfl⟩,
   ⟨rfl,
    (claim_c8_star_expansion.1 [.star] (.table "table1" table1Ctx) rfl).trans rfl⟩⟩

/-- C3: for a select with no GROUP BY clause, the compiled Select's group set
is the trivial GroupSet exactly when some (star-expanded) select field
transitively contains an aggregate function call, and no grouping (none)
otherwise. -/
theorem claim_c3_no_group_by :
    ∀ (R : Registry) (cat : Catalog) (fuel : Nat) (s : TqAst.Select)
      (sel : TypedAst.Select),
      s.groups = none →
      compile_select R cat (fuel + 1) s = .ok sel →
      ∃ te sf, compile_table_expr R cat fuel s.table_expr = .ok te ∧
        expand_select_fields s.select_fields te = .ok sf ∧
        sel.group_set =
          (if sf.any (fun f => expression_contains_aggregate R f.expr)
           then some TypedAst.TRIVIAL_GROUP_SET else none) := by
  intro R cat fuel s sel hg h
  rw [compile_select] at h
  obtain ⟨te, hte, h⟩ := bindOk h
  obtain ⟨w, hwe, h⟩ := bindOk h
  obtain ⟨sf, hsf, h⟩ := bindOk h
  obtain ⟨al, hal, h⟩ := bindOk h
  obtain ⟨gs, hgs, h⟩ := bindOk h
  obtain ⟨gf, hgf, h⟩ := bindOk h
  obtain ⟨cfd, hcfd, h⟩ := bindOk h
  obtain ⟨ord, hord, h⟩ := bindOk h
  cases h
  refine ⟨te, sf, hte, hsf, ?_⟩
  rw [hg] at hgs
  rw [compile_groups] at hgs
  cases hA : sf.any (fun f => expression_contains_aggregate R f.expr) with
  | true =>
    rw [hA] at hgs
    have hgs2 : gs = some TypedAst.TRIVIAL_GROUP_SET := by simpa using hgs.symm
    simp [hA, hgs2, TypedAst.Select.group_set]
  | false =>
    rw [hA] at hgs
    have hgs2 : gs = none := by simpa using hgs.symm
    simp [hA, hgs2, TypedAst.Select.group_set]

end Compiler

/-- The query SELECT MAX(value), MIN(value) FROM table1. -/
def maxMinQuery : TqAst.Select :=
  .mk [.field ⟨.functionCall "max" [.columnId "value"], none⟩,
       .field ⟨.functionCall "min" [.columnId "value"], none⟩]
      (some (.tableId "table1" none)) none none none none

/-- The compiled form of SELECT MAX(value), MIN(value) FROM table1. -/
def maxMinCompiled : TypedAst.Select :=
  .mk [⟨.aggregateFunctionCall "max" [.columnRef ⟨some "table1", "value", .int⟩] .int, "f0_"⟩,
       ⟨.aggregateFunctionCall "min" [.columnRef ⟨some "table1", "value", .int⟩] .int, "f1_"⟩]
      (.table "table1" table1Ctx)
      (.literal (.bool true) .bool)
      (some ⟨[], []⟩) none
      (.mk [((none, "f0_"), .int), ((none, "f1_"), .int)] none (some (.mk [] none none)))

namespace Compiler

/-- Witness for C3: the aggregate query yields the trivial GroupSet and the
plain SELECT 1 yields no group set at all. -/
theorem claim_c3_witness :
    maxMinQuery.groups = none ∧
    compile_select sampleRegistry sampleCatalog 3 maxMinQuery = .ok maxMinCompiled ∧
    (∃ te sf, compile_table_expr sampleRegistry sampleCatalog 2 maxMinQuery.table_expr = .ok te ∧
      expand_select_fields maxMinQuery.select_fields te = .ok sf ∧
      maxMinCompiled.group_set =
        (if sf.any (fun f => expression_contains_aggregate sampleRegistry f.expr)
         then some TypedAst.TRIVIAL_GROUP_SET else none)) ∧
    maxMinCompiled.group_set = some TypedAst.TRIVIAL_GROUP_SET ∧
    selectOneCompiled.group_set = none :=
  ⟨rfl, rfl,
   claim_c3_no_group_by sampleRegistry sampleCatalog 2 maxMinQuery maxMinCompiled rfl rfl,
   rfl, rfl⟩

end Compiler

end TinyQuery

namespace TinyQuery

namespace Compiler

/-- The duplicate check of get_aliases fails with the Ambiguous-kind
CompileError whenever the non-None proposed aliases contain a duplicate or
one of them is already in the accumulator. -/
theorem checkDup_error_of_dup :
    ∀ (l : List (Option String)) (acc : List String),
      (¬ (l.filterMap id).Nodup ∨ ∃ x ∈ l.filterMap id, x ∈ acc) →
      ∃ b, checkDupAliases l acc =
        .error (.compileError ("Ambiguous column name " ++ b ++ ".")) := by
  intro l
  induction l with
  | nil =>
    intro acc h
    rcases h with h | ⟨x, hx, _⟩
    · simp at h
    · simp at hx
  | cons o rest ih =>
    intro acc h
    cases o with
    | none => exact ih acc (by simpa using h)
    | some a =>
      rw [checkDupAliases]
      by_cases ha : a ∈ acc
      · exact ⟨a, by rw [if_pos ha]⟩
      · rw [if_neg ha]
        refine ih (a :: acc) ?_
        simp only [List.filterMap_cons, id] at h
        rcases h with h | ⟨x, hx, hacc⟩
        · rw [List.nodup_cons] at h
          push_neg at h
          by_cases hmem : a ∈ rest.filterMap id
          · exact .inr ⟨a, hmem, by simp⟩
          · exact .inl (h hmem)
        · simp only [List.mem_cons] at hx
          rcases hx with rfl | hx
          · exact absurd hacc ha
          · exact .inr ⟨x, hx, by simp [hacc]⟩

/-- Replacing stars in a star-free item list leaves the field list unchanged. -/
theorem flatMap_field_id (star : List TqAst.SelectField) :
    ∀ fields : List TqAst.SelectField,
      ((fields.map TqAst.SelectItem.field).flatMap (fun item =>
        match item with
        | TqAst.SelectItem.star => star
        | TqAst.SelectItem.field f => [f])) = fields := by
  intro fields
  induction fields with
  | nil => rfl
  | cons f fs ih => simp only [List.map_cons, List.flatMap_cons, ih]; rfl

/-- Star expansion of a select list with no stars returns it unchanged
whenever it succeeds. -/
theorem expand_fields_only {fields : List TqAst.SelectField}
    {te : TypedAst.TableExpression} {sf : List TqAst.SelectField}
    (h : expand_select_fields (fields.map TqAst.SelectItem.field) te = .ok sf) :
    sf = fields := by
  rw [expand_select_fields] at h
  obtain ⟨star, hstar, h⟩ := bindOk h
  cases h
  exact flatMap_field_id star fields

/-- C6: a select-field list in which two fields propose the same alias always
makes get_aliases fail with the Ambiguous-kind CompileError (message
"Ambiguous column name ..."), and no compiled Select is ever returned for a
query carrying such a select list. -/
theorem claim_c6_duplicate_alias :
    ∀ (fields : List TqAst.SelectField),
      ¬ ((fields.map field_alias).filterMap id).Nodup →
      (∃ b, get_aliases fields =
        .error (.compileError ("Ambiguous column name " ++ b ++ "."))) ∧
      (∀ (R : Registry) (cat : Catalog) (fuel : Nat) (tbl : Option TqAst.TableExpr)
          (w : Option TqAst.Expr) (g : Option (List String)) (lim : Option Nat)
          (al : Option String) (sel : TypedAst.Select),
        compile_select R cat fuel
          (.mk (fields.map TqAst.SelectItem.field) tbl w g lim al) ≠ .ok sel) := by
  intro fields hdup
  have herr := checkDup_error_of_dup (fields.map field_alias) [] (.inl hdup)
  obtain ⟨b, hb⟩ := herr
  constructor
  · exact ⟨b, by rw [get_aliases, hb]; rfl⟩
  · intro R cat fuel tbl w g lim al sel h
    match fuel with
    | 0 => exact Except.noConfusion h
    | fuel+1 =>
      rw [compile_select] at h
      obtain ⟨te, hte, h⟩ := bindOk h
      obtain ⟨wc, hwe, h⟩ := bindOk h
      obtain ⟨sf, hsf, h⟩ := bindOk h
      obtain ⟨als, hal, h⟩ := bindOk h
      have : sf = fields := expand_fields_only (by simpa using hsf)
      subst this
      rw [get_aliases, hb] at hal
      exact Except.noConfusion hal

end Compiler

/-- Two select fields proposing the same alias foo
(SELECT 0 AS foo, value foo). -/
def dupAliasFields : List TqAst.SelectField :=
  [⟨.literal (.int 0), some "foo"⟩, ⟨.columnId "value", some "foo"⟩]

namespace Compiler

/-- Witness for C6 at the query SELECT 0 AS foo, value foo FROM table1. -/
theorem claim_c6_witness :
    (∃ b, get_aliases dupAliasFields =
      .error (.compileError ("Ambiguous column name " ++ b ++ "."))) ∧
    compile_select sampleRegistry sampleCatalog 5
      (.mk (dupAliasFields.map TqAst.SelectItem.field)
        (some (.tableId "table1" none)) none none none none) =
      .error (.compileError "Ambiguous column name foo.") :=
  ⟨(claim_c6_duplicate_alias dupAliasFields (by decide)).1, rfl⟩

end Compiler

end TinyQuery

namespace TinyQuery

/-- Alias-qualifying a context overwrites the qualifier of every column
entry. -/
theorem context_with_full_alias_columns (ctx : TypeContext) (a : String) :
    (ctx.context_with_full_alias a).columns =
      ctx.columns.map (fun e => ((some a, e.1.2), e.2)) := by
  cases ctx
  rw [TypeContext.context_with_full_alias.eq_def]
  rfl

/-- A successful with_type_ctx call installs exactly the given context. -/
theorem with_type_ctx_ok {t t' : TypedAst.TableExpression} {ctx : TypeContext}
    (h : t.with_type_ctx ctx = .ok t') : t'.type_ctx = ctx := by
  cases t with
  | table n c => cases h; rfl
  | select s => cases h; cases s; rfl
  | noTable => exact Except.noConfusion h
  | tableUnion ts c => exact Except.noConfusion h
  | join a b cs o c => exact Except.noConfusion h

/-- A monadic map whose function succeeds pointwise succeeds. -/
theorem mapM_ok_exists {α β : Type} {l : List α} {f : α → Except Err β}
    (h : ∀ e ∈ l, ∃ y, f e = .ok y) : ∃ ys, l.mapM f = .ok ys := by
  induction l with
  | nil => exact ⟨[], rfl⟩
  | cons e es ih =>
    obtain ⟨y, hy⟩ := h e (by simp)
    obtain ⟨ys, hys⟩ := ih (fun x hx => h x (by simp [hx]))
    refine ⟨y :: ys, ?_⟩
    rw [List.mapM_cons, hy, hys]
    rfl

namespace Compiler

/-- Building a star-expansion field succeeds for every column entry carrying a
qualifier (and for every entry at all when the table expression is not a
join). -/
theorem star_select_field_ok (te : TypedAst.TableExpression)
    (e : (Option String × String) × TQType) (h : e.1.1.isSome) :
    ∃ f, star_select_field te e = .ok f := by
  obtain ⟨⟨q, nm⟩, ty⟩ := e
  obtain ⟨t, ht⟩ := Option.isSome_iff_exists.mp h
  have ht2 : q = some t := ht
  subst ht2
  cases te with
  | join _ _ _ _ _ => exact ⟨_, rfl⟩
  | noTable => exact ⟨_, rfl⟩
  | table _ _ => exact ⟨_, rfl⟩
  | tableUnion _ _ => exact ⟨_, rfl⟩
  | select _ => exact ⟨_, rfl⟩

/-- Star expansion always succeeds over a table expression all of whose
context columns carry a qualifier. -/
theorem expand_ok_of_qualified {te : TypedAst.TableExpression}
    (hq : ∀ e ∈ te.type_ctx.columns, e.1.1.isSome)
    (items : List TqAst.SelectItem) :
    ∃ sf, expand_select_fields items te = .ok sf := by
  obtain ⟨ys, hys⟩ :=
    mapM_ok_exists (fun e he => star_select_field_ok te e (hq e he))
  refine ⟨items.flatMap (fun item => match item with
    | .star => ys
    | .field f => [f]), ?_⟩
  rw [expand_select_fields, hys]
  rfl

/-- Each side of a join is re-qualified so that every column of its context
carries exactly the side's alias as qualifier. -/
theorem compile_joined_table_qualified :
    ∀ (R : Registry) (cat : Catalog) (fuel : Nat) (te : TqAst.TableExpr)
      (ct : TypedAst.TableExpression) (al : String),
      compile_joined_table R cat fuel te = .ok (ct, al) →
      ∀ e ∈ ct.type_ctx.columns, e.1.1 = some al := by
  intro R cat fuel te ct al h
  match fuel with
  | 0 => exact Except.noConfusion h
  | fuel+1 =>
    rw [compile_joined_table] at h
    obtain ⟨c, hc, h⟩ := bindOk h
    obtain ⟨ao, hao, h⟩ := bindOk h
    have main : ∀ (an : String),
        (c.with_type_ctx (c.type_ctx.context_with_full_alias an)) >>=
          (fun ct2 => Except.ok (ct2, an)) = Except.ok (ct, al) →
        ∀ e ∈ ct.type_ctx.columns, e.1.1 = some al := by
      intro an h2
      obtain ⟨c2, hc2, h2⟩ := bindOk h2
      cases h2
      intro e he
      rw [with_type_ctx_ok hc2, context_with_full_alias_columns] at he
      obtain ⟨x, _, hx⟩ := List.mem_map.mp he
      rw [← hx]
    cases ao with
    | some a => exact main a h
    | none =>
      cases te with
      | tableId n al2 => exact main n h
      | tableUnion ts => exact Except.noConfusion h
      | join a b cnd o => exact Except.noConfusion h
      | crossJoin a b => exact Except.noConfusion h
      | select s => exact Except.noConfusion h

end Compiler

end TinyQuery

namespace TinyQuery

namespace Compiler

/-- C10: every successfully compiled conditional or cross join has both sides
re-qualified with their aliases, so all columns of the join's result context
carry a non-None qualifier and star expansion over the join cannot hit a
missing qualifier; a joined side that is neither aliased nor a bare table
reference fails with a CompileError. -/
theorem claim_c10_join_context_qualifiers :
    (∀ (R : Registry) (cat : Catalog) (fuel : Nat) (te : TqAst.TableExpr)
        (ct : TypedAst.TableExpression) (al : String),
      compile_joined_table R cat fuel te = .ok (ct, al) →
      ∀ e ∈ ct.type_ctx.columns, e.1.1 = some al) ∧
    (∀ (R : Registry) (cat : Catalog) (fuel : Nat) (t1 t2 : TqAst.TableExpr)
        (cond : TqAst.Expr) (outer : Bool) (tte : TypedAst.TableExpression),
      compile_table_expr R cat fuel (some (.join t1 t2 cond outer)) = .ok tte →
      (∀ e ∈ tte.type_ctx.columns, e.1.1.isSome) ∧
      (∀ items, ∃ sf, expand_select_fields items tte = .ok sf)) ∧
    (∀ (R : Registry) (cat : Catalog) (fuel : Nat) (t1 t2 : TqAst.TableExpr)
        (tte : TypedAst.TableExpression),
      compile_table_expr R cat fuel (some (.crossJoin t1 t2)) = .ok tte →
      (∀ e ∈ tte.type_ctx.columns, e.1.1.isSome) ∧
      (∀ items, ∃ sf, expand_select_fields items tte = .ok sf)) ∧
    (∀ (R : Registry) (cat : Catalog) (fuel : Nat) (sub : TqAst.Select)
        (c : TypedAst.TableExpression),
      sub.aliasName = none →
      compile_table_expr R cat fuel (some (.select sub)) = .ok c →
      compile_joined_table R cat (fuel + 1) (.select sub) =
        .error (.compileError "Table expression must have an alias name.")) := by
  refine ⟨compile_joined_table_qualified, ?_, ?_, ?_⟩
  · intro R cat fuel t1 t2 cond outer tte h
    match fuel with
    | 0 => exact Except.noConfusion h
    | fuel+1 =>
      rw [compile_table_expr] at h
      match fuel, h with
      | 0, h => exact Except.noConfusion h
      | fuel+1, h =>
        rw [compile_table_expr_Join] at h
        obtain ⟨p1, hp1, h⟩ := bindOk h
        obtain ⟨p2, hp2, h⟩ := bindOk h
        obtain ⟨jfs, hjfs, h⟩ := bindOk h
        cases h
        have hq : ∀ e ∈ (TypedAst.TableExpression.join p1.1 p2.1 jfs outer
            (TypeContext.join_contexts [p1.1.type_ctx, p2.1.type_ctx])).type_ctx.columns,
            e.1.1.isSome := by
          intro e he
          simp only [TypedAst.TableExpression.type_ctx, TypeContext.join_contexts,
            TypeContext.columns, List.flatMap_cons, List.flatMap_nil,
            List.append_nil, List.mem_append] at he
          rcases he with he | he
          · rw [compile_joined_table_qualified R cat fuel t1 p1.1 p1.2 hp1 e he]
            rfl
          · rw [compile_joined_table_qualified R cat fuel t2 p2.1 p2.2 hp2 e he]
            rfl
        exact ⟨hq, expand_ok_of_qualified hq⟩
  · intro R cat fuel t1 t2 tte h
    match fuel with
    | 0 => exact Except.noConfusion h
    | fuel+1 =>
      rw [compile_table_expr] at h
      match fuel, h with
      | 0, h => exact Except.noConfusion h
      | fuel+1, h =>
        rw [compile_table_expr_CrossJoin] at h
        obtain ⟨p1, hp1, h⟩ := bindOk h
        obtain ⟨p2, hp2, h⟩ := bindOk h
        cases h
        have hq : ∀ e ∈ (TypedAst.TableExpression.join p1.1 p2.1 [] false
            (TypeContext.join_contexts [p1.1.type_ctx, p2.1.type_ctx])).type_ctx.columns,
            e.1.1.isSome := by
          intro e he
          simp only [TypedAst.TableExpression.type_ctx, TypeContext.join_contexts,
            TypeContext.columns, List.flatMap_cons, List.flatMap_nil,
            List.append_nil, List.mem_append] at he
          rcases he with he | he
          · rw [compile_joined_table_qualified R cat fuel t1 p1.1 p1.2 hp1 e he]
            rfl
          · rw [compile_joined_table_qualified R cat fuel t2 p2.1 p2.2 hp2 e he]
            rfl
        exact ⟨hq, expand_ok_of_qualified hq⟩
  · intro R cat fuel sub c hal hcte
    cases sub with
    | mk f t w g l a =>
      have ha : a = none := hal
      subst ha
      rw [compile_joined_table, hcte]
      rfl

end Compiler

/-- The compiled subquery (SELECT value FROM table1) with no alias. -/
def subqueryNoAliasCompiled : TypedAst.TableExpression :=
  .select (.mk [⟨.columnRef ⟨some "table1", "value", .int⟩, "value"⟩]
    (.table "table1" table1Ctx) (.literal (.bool true) .bool) none none
    (.mk [((none, "value"), .int)] none
      (some (.mk [((some "table1", "value"), .int)] none none))))

namespace Compiler

/-- Witness for C10: the compiled sample join has only qualified context
columns and star-expands successfully, and an aliasless subquery as a join
side is a CompileError. -/
theorem claim_c10_witness :
    compile_table_expr sampleRegistry sampleCatalog 5
      (some (.join (.tableId "table1" (some "t1")) (.tableId "table2" (some "t2"))
        (.binaryOperator "=" (.columnId "t1.value") (.columnId "t2.value")) false))
      = .ok sampleJoinExpr ∧
    (sampleJoinExpr.type_ctx.columns.all (fun e => e.1.1.isSome)) = true ∧
    (∃ sf, expand_select_fields [.star] sampleJoinExpr = .ok sf) ∧
    compile_joined_table sampleRegistry sampleCatalog 6
      (.select (.mk [.field ⟨.columnId "value", none⟩]
        (some (.tableId "table1" none)) none none none none)) =
      .error (.compileError "Table expression must have an alias name.") :=
  ⟨rfl, by decide,
   (claim_c10_join_context_qualifiers.2.1 sampleRegistry sampleCatalog 5
     (.tableId "table1" (some "t1")) (.tableId "table2" (some "t2"))
     (.binaryOperator "=" (.columnId "t1.value") (.columnId "t2.value")) false
     sampleJoinExpr rfl).2 [.star],
   claim_c10_join_context_qualifiers.2.2.2 sampleRegistry sampleCatalog 5
     (.mk [.field ⟨.columnId "value", none⟩]
       (some (.tableId "table1" none)) none none none none)
     subqueryNoAliasCompiled rfl rfl⟩

end Compiler

end TinyQuery

namespace TinyQuery

/-- Every column entry of the context, including the entries of its implicit
column contexts, carries exactly the given qualifier. -/
def allQualified (a : String) : TypeContext → Prop
  | .mk cols _ impl =>
    (∀ e ∈ cols, e.1.1 = some a) ∧
    (match impl with
     | some c => allQualified a c
     | none => True)

/-- Unfolding equation for column_ref_for_name on a constructed context. -/
theorem colref_eq (cols : List ((Option String × String) × TQType))
    (agg impl : Option TypeContext) (name : String) :
    (TypeContext.mk cols agg impl).column_ref_for_name name =
      (match cols.filter (TypeContext.matchesName name), impl with
       | [e], _ => .ok ⟨e.1.1, e.1.2, e.2⟩
       | [], some c => c.column_ref_for_name name
       | [], none => .error (.compileError ("No such field " ++ name ++ "."))
       | _ :: _ :: _, _ =>
         .error (.compileError ("Ambiguous field reference " ++ name ++ "."))) := by
  rw [TypeContext.column_ref_for_name.eq_def]

/-- Name resolution against a context all of whose entries carry the
qualifier a returns a reference qualified by a. -/
theorem colref_qualified {a : String} :
    ∀ (ctx : TypeContext) (name : String) (r : TypedAst.ColumnRef),
      allQualified a ctx → ctx.column_ref_for_name name = .ok r →
      r.table = some a
  | .mk cols agg impl, name, r => by
    intro hq h
    rw [colref_eq] at h
    cases impl with
    | none =>
      have hq1 : ∀ e ∈ cols, e.1.1 = some a :=
        (show (∀ e ∈ cols, e.1.1 = some a) ∧ True from hq).1
      cases hf : cols.filter (TypeContext.matchesName name) with
      | nil => rw [hf] at h; exact Except.noConfusion h
      | cons e rest =>
        cases rest with
        | nil =>
          rw [hf] at h
          cases h
          exact hq1 e (List.mem_of_mem_filter (hf ▸ List.mem_singleton_self e))
        | cons x xs => rw [hf] at h; exact Except.noConfusion h
    | some c =>
      have hq12 : (∀ e ∈ cols, e.1.1 = some a) ∧ allQualified a c := hq
      cases hf : cols.filter (TypeContext.matchesName name) with
      | nil => rw [hf] at h; exact colref_qualified c name r hq12.2 h
      | cons e rest =>
        cases rest with
        | nil =>
          rw [hf] at h
          cases h
          exact hq12.1 e (List.mem_of_mem_filter (hf ▸ List.mem_singleton_self e))
        | cons x xs => rw [hf] at h; exact Except.noConfusion h

/-- Name resolution can only fail with the compiler's own error type
(NotFound or Ambiguous kind). -/
theorem colref_error_compile :
    ∀ (ctx : TypeContext) (name : String) (e : Err),
      ctx.column_ref_for_name name = .error e → ∃ msg, e = .compileError msg
  | .mk cols agg impl, name, e => by
    intro h
    rw [colref_eq] at h
    cases hf : cols.filter (TypeContext.matchesName name) with
    | nil =>
      rw [hf] at h
      cases impl with
      | some c => exact colref_error_compile c name e h
      | none => exact ⟨_, (Except.error.inj h).symm⟩
    | cons x rest =>
      cases rest with
      | nil => rw [hf] at h; exact Except.noConfusion h
      | cons y ys =>
        rw [hf] at h
        exact ⟨_, (Except.error.inj h).symm⟩

/-- Inversion for a failing Except bind. -/
theorem bindErr {α β : Type} {x : Except Err α} {f : α → Except Err β} {e : Err}
    (h : x >>= f = .error e) :
    x = .error e ∨ ∃ a, x = .ok a ∧ f a = .error e := by
  cases x with
  | ok a => exact .inr ⟨a, rfl, h⟩
  | error e2 =>
    simp only [Bind.bind, Except.bind] at h
    cases h
    exact .inl rfl

namespace Compiler

/-- Whether one comparison has the accepted shape: an equality between two
column references. -/
def isJoinShapeEq : TqAst.Expr → TqAst.Expr → Bool
  | .columnId _, .columnId _ => true
  | _, _ => false

/-- Whether an ON expression has the accepted overall shape: a top-level
conjunction of equality comparisons between column references. -/
def isJoinShape : TqAst.Expr → Bool
  | .binaryOperator op l r =>
    if op = "and" then isJoinShape l && isJoinShape r
    else if op = "=" then isJoinShapeEq l r
    else false
  | _ => false

end Compiler

end TinyQuery

namespace TinyQuery

namespace Compiler

/-- The three C2 properties hold trivially for an ON expression on which
compile_join_fields raises the malformed-condition CompileError. -/
theorem cjf_error_triple {ctx1 ctx2 : TypeContext} {a1 a2 : String}
    {X : TqAst.Expr}
    (hX : compile_join_fields ctx1 ctx2 a1 a2 X =
      .error (.compileError joinCondMsg)) :
    (∀ fields, compile_join_fields ctx1 ctx2 a1 a2 X = .ok fields →
      ∀ jf ∈ fields, jf.column1.table = some a1 ∧ jf.column2.table = some a2) ∧
    (∀ e, compile_join_fields ctx1 ctx2 a1 a2 X = .error e →
      ∃ msg, e = .compileError msg) ∧
    (isJoinShape X = false →
      ∃ e, compile_join_fields ctx1 ctx2 a1 a2 X = .error e) := by
  refine ⟨?_, ?_, fun _ => ⟨_, hX⟩⟩
  · intro fields h
    rw [hX] at h
    exact Except.noConfusion h
  · intro e h
    rw [hX] at h
    exact ⟨joinCondMsg, (Except.error.inj h).symm⟩

/-- Main induction for C2, structurally recursive on the ON expression. -/
theorem cjf_normalization_aux (ctx1 ctx2 : TypeContext) (a1 a2 : String)
    (hq1 : allQualified a1 ctx1) (hq2 : allQualified a2 ctx2) :
    ∀ (expr : TqAst.Expr),
      (∀ fields, compile_join_fields ctx1 ctx2 a1 a2 expr = .ok fields →
        ∀ jf ∈ fields, jf.column1.table = some a1 ∧ jf.column2.table = some a2) ∧
      (∀ e, compile_join_fields ctx1 ctx2 a1 a2 expr = .error e →
        ∃ msg, e = .compileError msg) ∧
      (isJoinShape expr = false →
        ∃ e, compile_join_fields ctx1 ctx2 a1 a2 expr = .error e)
  | .literal _ => cjf_error_triple rfl
  | .columnId _ => cjf_error_triple rfl
  | .unaryOperator _ _ => cjf_error_triple rfl
  | .functionCall _ _ => cjf_error_triple rfl
  | .binaryOperator op l r => by
    have ihl := cjf_normalization_aux ctx1 ctx2 a1 a2 hq1 hq2 l
    have ihr := cjf_normalization_aux ctx1 ctx2 a1 a2 hq1 hq2 r
    by_cases hop : op = "and"
    · subst hop
      refine ⟨?_, ?_, ?_⟩
      · intro fields h jf hjf
        rw [compile_join_fields, if_pos rfl] at h
        obtain ⟨f1, hf1, h⟩ := bindOk h
        obtain ⟨f2, hf2, h⟩ := bindOk h
        cases h
        rcases List.mem_append.mp hjf with hm | hm
        · exact ihl.1 f1 hf1 jf hm
        · exact ihr.1 f2 hf2 jf hm
      · intro e h
        rw [compile_join_fields, if_pos rfl] at h
        rcases bindErr h with h | ⟨f1, hf1, h⟩
        · exact ihl.2.1 e h
        · rcases bindErr h with h | ⟨f2, hf2, h⟩
          · exact ihr.2.1 e h
          · exact Except.noConfusion h
      · intro hshape
        rw [isJoinShape, if_pos rfl] at hshape
        cases hl : compile_join_fields ctx1 ctx2 a1 a2 l with
        | error e =>
          refine ⟨e, ?_⟩
          rw [compile_join_fields, if_pos rfl, hl]
          rfl
        | ok f1 =>
          cases hr : compile_join_fields ctx1 ctx2 a1 a2 r with
          | error e =>
            refine ⟨e, ?_⟩
            rw [compile_join_fields, if_pos rfl, hl, hr]
            rfl
          | ok f2 =>
            rcases Bool.and_eq_false_iff.mp hshape with hs | hs
            · obtain ⟨e, he⟩ := ihl.2.2 hs
              rw [he] at hl
              exact Except.noConfusion hl
            · obtain ⟨e, he⟩ := ihr.2.2 hs
              rw [he] at hr
              exact Except.noConfusion hr
    · by_cases heq : op = "="
      · subst heq
        cases l with
        | columnId n1 =>
          cases r with
          | columnId n2 =>
            refine ⟨?_, ?_, ?_⟩
            · intro fields h jf hjf
              rw [compile_join_fields, if_neg hop, if_pos rfl,
                compile_join_field_eq] at h
              obtain ⟨r1, hr1, h⟩ := bindOk h
              obtain ⟨r2, hr2, h⟩ := bindOk h
              cases h
              rw [List.mem_singleton.mp hjf]
              exact ⟨colref_qualified ctx1 _ r1 hq1 hr1,
                colref_qualified ctx2 _ r2 hq2 hr2⟩
            · intro e h
              rw [compile_join_fields, if_neg hop, if_pos rfl,
                compile_join_field_eq] at h
              rcases bindErr h with h | ⟨r1, hr1, h⟩
              · exact colref_error_compile ctx1 _ e h
              · rcases bindErr h with h | ⟨r2, hr2, h⟩
                · exact colref_error_compile ctx2 _ e h
                · exact Except.noConfusion h
            · intro hshape
              rw [isJoinShape, if_neg hop, if_pos rfl, isJoinShapeEq] at hshape
              exact Bool.noConfusion hshape
          | literal v => exact cjf_error_triple rfl
          | unaryOperator o e => exact cjf_error_triple rfl
          | binaryOperator o e1 e2 => exact cjf_error_triple rfl
          | functionCall nm args => exact cjf_error_triple rfl
        | literal v => exact cjf_error_triple rfl
        | unaryOperator o e => exact cjf_error_triple rfl
        | binaryOperator o e1 e2 => exact cjf_error_triple rfl
        | functionCall nm args => exact cjf_error_triple rfl
      · refine cjf_error_triple ?_
        rw [compile_join_fields, if_neg hop, if_neg heq]

/-- C2: every join-field pair compile_join_fields produces has its first
column qualified by the first table's alias and its second column qualified
by the second table's alias, regardless of the order each equality was
written; every failure is the compiler's own error type; and an ON
expression that is not a top-level conjunction of equality comparisons
between column references always fails. -/
theorem claim_c2_join_normalization :
    ∀ (ctx1 ctx2 : TypeContext) (a1 a2 : String) (expr : TqAst.Expr),
      allQualified a1 ctx1 → allQualified a2 ctx2 →
      (∀ fields, compile_join_fields ctx1 ctx2 a1 a2 expr = .ok fields →
        ∀ jf ∈ fields, jf.column1.table = some a1 ∧ jf.column2.table = some a2) ∧
      (∀ e, compile_join_fields ctx1 ctx2 a1 a2 expr = .error e →
        ∃ msg, e = .compileError msg) ∧
      (isJoinShape expr = false →
        ∃ e, compile_join_fields ctx1 ctx2 a1 a2 expr = .error e) :=
  fun ctx1 ctx2 a1 a2 expr hq1 hq2 =>
    cjf_normalization_aux ctx1 ctx2 a1 a2 hq1 hq2 expr

end Compiler

end TinyQuery

namespace TinyQuery

/-- table1's context re-qualified under join alias t1. -/
def t1AliasCtx : TypeContext :=
  .mk [((some "t1", "value"), .int), ((some "t1", "value2"), .int)] none none

/-- table2's context re-qualified under join alias t2. -/
def t2AliasCtx : TypeContext :=
  .mk [((some "t2", "value"), .int), ((some "t2", "value3"), .int)] none none

/-- The ON condition t1.value = t2.value AND t2.value3 = t1.value2, whose
second equality is written in reversed order. -/
def onCondSample : TqAst.Expr :=
  .binaryOperator "and"
    (.binaryOperator "=" (.columnId "t1.value") (.columnId "t2.value"))
    (.binaryOperator "=" (.columnId "t2.value3") (.columnId "t1.value2"))

namespace Compiler

/-- Witness for C2 at the spec's example: both pairs come out normalized with
t1 first and t2 second although the second equality was written reversed. -/
theorem claim_c2_witness :
    compile_join_fields t1AliasCtx t2AliasCtx "t1" "t2" onCondSample =
      .ok [⟨⟨some "t1", "value", .int⟩, ⟨some "t2", "value", .int⟩⟩,
           ⟨⟨some "t1", "value2", .int⟩, ⟨some "t2", "value3", .int⟩⟩] ∧
    ((⟨⟨some "t1", "value", .int⟩, ⟨some "t2", "value", .int⟩⟩ :
        TypedAst.JoinFields).column1.table = some "t1" ∧
      (⟨⟨some "t1", "value", .int⟩, ⟨some "t2", "value", .int⟩⟩ :
        TypedAst.JoinFields).column2.table = some "t2") ∧
    ((⟨⟨some "t1", "value2", .int⟩, ⟨some "t2", "value3", .int⟩⟩ :
        TypedAst.JoinFields).column1.table = some "t1" ∧
      (⟨⟨some "t1", "value2", .int⟩, ⟨some "t2", "value3", .int⟩⟩ :
        TypedAst.JoinFields).column2.table = some "t2") :=
  ⟨rfl,
   (claim_c2_join_normalization t1AliasCtx t2AliasCtx "t1" "t2" onCondSample
     ⟨by decide, trivial⟩ ⟨by decide, trivial⟩).1 _ rfl
     ⟨⟨some "t1", "value", .int⟩, ⟨some "t2", "value", .int⟩⟩ (by decide),
   (claim_c2_join_normalization t1AliasCtx t2AliasCtx "t1" "t2" onCondSample
     ⟨by decide, trivial⟩ ⟨by decide, trivial⟩).1 _ rfl
     ⟨⟨some "t1", "value2", .int⟩, ⟨some "t2", "value3", .int⟩⟩ (by decide)⟩

end Compiler

end TinyQuery

namespace TinyQuery

namespace Compiler

/-- The fueled decimal rendering is fuel-independent once the fuel exceeds
the number. -/
theorem natDecAux_fuel : ∀ (n f1 f2 : Nat), n < f1 → n < f2 →
    natDecAux f1 n = natDecAux f2 n := by
  intro n
  induction n using Nat.strong_induction_on with
  | _ n ih =>
    intro f1 f2 h1 h2
    match f1, f2 with
    | 0, _ => omega
    | _+1, 0 => omega
    | g1+1, g2+1 =>
      rw [natDecAux, natDecAux]
      by_cases hn : n < 10
      · rw [if_pos hn, if_pos hn]
      · rw [if_neg hn, if_neg hn]
        have hd : n / 10 < n := Nat.div_lt_self (by omega) (by omega)
        rw [ih (n / 10) hd g1 g2 (by omega) (by omega)]

/-- The decimal rendering of a number below its fuel is nonempty. -/
theorem natDecAux_ne_nil : ∀ (f n : Nat), n < f → natDecAux f n ≠ [] := by
  intro f n h
  match f with
  | g+1 =>
    rw [natDecAux]
    by_cases hn : n < 10
    · rw [if_pos hn]; simp
    · rw [if_neg hn]; simp

/-- Decimal digit characters are distinct for distinct digits. -/
theorem digitChar_inj : ∀ (a b : Nat), a < 10 → b < 10 →
    Char.ofNat (48 + a) = Char.ofNat (48 + b) → a = b := by
  intro a b ha hb h
  interval_cases a <;> interval_cases b <;>
    first
    | rfl
    | exact absurd h (by decide)

/-- The decimal rendering is injective. -/
theorem natDec_inj : ∀ (n m : Nat), natDec n = natDec m → n = m := by
  intro n
  induction n using Nat.strong_induction_on with
  | _ n ih =>
    intro m h
    have hl : natDecAux (n + 1) n = natDecAux (m + 1) m := congrArg String.data h
    by_cases hn : n < 10 <;> by_cases hm : m < 10
    · rw [natDecAux, if_pos hn, natDecAux, if_pos hm] at hl
      exact digitChar_inj n m hn hm (by injection hl)
    · exfalso
      rw [natDecAux, if_pos hn, natDecAux, if_neg hm] at hl
      have hlen := congrArg List.length hl
      simp only [List.length_singleton, List.length_append] at hlen
      exact natDecAux_ne_nil m (m / 10)
        (Nat.lt_of_lt_of_le (Nat.div_lt_self (by omega) (by omega)) (by omega))
        (List.length_eq_zero.mp (by omega))
    · exfalso
      rw [natDecAux, if_neg hn, natDecAux, if_pos hm] at hl
      have hlen := congrArg List.length hl
      simp only [List.length_singleton, List.length_append] at hlen
      exact natDecAux_ne_nil n (n / 10)
        (Nat.lt_of_lt_of_le (Nat.div_lt_self (by omega) (by omega)) (by omega))
        (List.length_eq_zero.mp (by omega))
    · rw [natDecAux, if_neg hn, natDecAux, if_neg hm] at hl
      have hrev := congrArg List.reverse hl
      simp only [List.reverse_append, List.reverse_cons, List.reverse_nil,
        List.nil_append, List.singleton_append] at hrev
      have hd : Char.ofNat (48 + n % 10) = Char.ofNat (48 + m % 10) := by
        injection hrev
      have htl : (natDecAux n (n / 10)).reverse = (natDecAux m (m / 10)).reverse := by
        injection hrev
      have hmod : n % 10 = m % 10 :=
        digitChar_inj _ _ (Nat.mod_lt n (by omega)) (Nat.mod_lt m (by omega)) hd
      have htail : natDecAux n (n / 10) = natDecAux m (m / 10) :=
        List.reverse_injective htl
      have hdn : n / 10 < n := Nat.div_lt_self (by omega) (by omega)
      have hdm : m / 10 < m := Nat.div_lt_self (by omega) (by omega)
      have htail2 : natDecAux (n / 10 + 1) (n / 10) = natDecAux (m / 10 + 1) (m / 10) := by
        rw [← natDecAux_fuel (n / 10) n (n / 10 + 1) hdn (Nat.lt_succ_self _),
          ← natDecAux_fuel (m / 10) m (m / 10 + 1) hdm (Nat.lt_succ_self _)]
        exact htail
      have hdiv : n / 10 = m / 10 :=
        ih (n / 10) hdn (m / 10) (congrArg String.mk htail2)
      omega

/-- The synthetic alias names are pairwise distinct. -/
theorem genericName_inj : ∀ (n m : Nat), genericName n = genericName m → n = m := by
  intro n m h
  have hd : ("f".data ++ (natDec n).data) ++ "_".data =
      ("f".data ++ (natDec m).data) ++ "_".data := by
    rw [← String.data_append, ← String.data_append,
      ← String.data_append, ← String.data_append]
    exact congrArg String.data h
  have h2 := List.append_cancel_right hd
  have h3 := List.append_cancel_left h2
  exact natDec_inj n m (String.ext h3)

end Compiler

end TinyQuery

namespace TinyQuery

namespace Compiler

/-- Given enough fuel, the generic-name scan returns the least counter value
at or above the start whose synthetic name is not taken. -/
theorem findGeneric_spec (used : List String) :
    ∀ (fuel c : Nat), (∃ k, k < fuel ∧ genericName (c + k) ∉ used) →
      genericName (findGeneric used fuel c) ∉ used ∧
      c ≤ findGeneric used fuel c ∧
      (∀ m, c ≤ m → m < findGeneric used fuel c → genericName m ∈ used) := by
  intro fuel
  induction fuel with
  | zero =>
    intro c h
    obtain ⟨k, hk, _⟩ := h
    omega
  | succ fuel ih =>
    intro c h
    rw [findGeneric]
    by_cases hc : genericName c ∈ used
    · rw [if_pos hc]
      obtain ⟨k, hk, hfree⟩ := h
      match k, hfree with
      | 0, hfree => exact absurd (by simpa using hc) (by simpa using hfree)
      | k+1, hfree =>
        have := ih (c + 1) ⟨k, by omega, by
          have : c + 1 + k = c + (k + 1) := by omega
          rw [this]
          exact hfree⟩
        refine ⟨this.1, by omega, ?_⟩
        intro m hm1 hm2
        rcases Nat.eq_or_lt_of_le hm1 with rfl | hlt
        · exact hc
        · exact this.2.2 m (by omega) hm2
    · rw [if_neg hc]
      exact ⟨hc, Nat.le_refl c, fun m h1 h2 => by omega⟩

/-- Pigeonhole: within any window of length one more than the used list, some
synthetic name is free. -/
theorem findGeneric_fuel (used : List String) (c : Nat) :
    ∃ k, k < used.length + 1 ∧ genericName (c + k) ∉ used := by
  by_contra hcon
  push_neg at hcon
  have hnodup : ((List.range (used.length + 1)).map
      (fun k => genericName (c + k))).Nodup := by
    refine List.Nodup.map ?_ (List.nodup_range _)
    intro x y hxy
    have := genericName_inj (c + x) (c + y) hxy
    omega
  have hsub : ((List.range (used.length + 1)).map
      (fun k => genericName (c + k))) ⊆ used := by
    intro s hs
    obtain ⟨k, hk, rfl⟩ := List.mem_map.mp hs
    exact hcon k (List.mem_range.mp hk)
  have hle := (hnodup.subperm hsub).length_le
  simp at hle

end Compiler

end TinyQuery

namespace TinyQuery

namespace Compiler

/-- On success, the duplicate check returns exactly the non-None proposed
aliases (plus the accumulator), as a set. -/
theorem checkDup_mem : ∀ (l : List (Option String)) (acc u : List String),
    checkDupAliases l acc = .ok u →
    ∀ x, x ∈ u ↔ (x ∈ l.filterMap id ∨ x ∈ acc) := by
  intro l
  induction l with
  | nil =>
    intro acc u h x
    cases h
    simp
  | cons o rest ih =>
    intro acc u h x
    cases o with
    | none =>
      rw [checkDupAliases] at h
      simpa using ih acc u h x
    | some a =>
      rw [checkDupAliases] at h
      by_cases ha : a ∈ acc
      · rw [if_pos ha] at h
        exact Except.noConfusion h
      · rw [if_neg ha] at h
        rw [ih (a :: acc) u h x]
        simp only [List.filterMap_cons, id, List.mem_cons]
        tauto

/-- On success, the non-None proposed aliases are pairwise distinct. -/
theorem checkDup_ok_nodup {l : List (Option String)} {u : List String}
    (h : checkDupAliases l [] = .ok u) : (l.filterMap id).Nodup := by
  by_contra hdup
  obtain ⟨b, hb⟩ := checkDup_error_of_dup l [] (.inl hdup)
  rw [hb] at h
  exact Except.noConfusion h

/-- In a list of options whose present values are pairwise distinct, equal
present values sit at equal positions. -/
theorem filterMap_id_pos_inj :
    ∀ (l : List (Option String)), (l.filterMap id).Nodup →
      ∀ (i j : Nat) (a : String),
        l[i]? = some (some a) → l[j]? = some (some a) → i = j := by
  intro l
  induction l with
  | nil =>
    intro _ i j a hi
    simp at hi
  | cons o rest ih =>
    intro hnd i j a hi hj
    cases o with
    | none =>
      match i, j, hi, hj with
      | 0, _, hi, _ => simp at hi
      | _+1, 0, _, hj => simp at hj
      | i+1, j+1, hi, hj =>
        simp only [List.getElem?_cons_succ] at hi hj
        have := ih (by simpa using hnd) i j a hi hj
        omega
    | some b =>
      have hnd2 : b ∉ rest.filterMap id ∧ (rest.filterMap id).Nodup := by
        simpa using hnd
      match i, j, hi, hj with
      | 0, 0, _, _ => rfl
      | 0, j+1, hi, hj =>
        exfalso
        have hb : b = a := by simpa using hi
        subst hb
        simp only [List.getElem?_cons_succ] at hj
        exact hnd2.1 (List.mem_filterMap.mpr ⟨some b, List.getElem?_mem hj, rfl⟩)
      | i+1, 0, hi, hj =>
        exfalso
        have hb : b = a := by simpa using hj
        subst hb
        simp only [List.getElem?_cons_succ] at hi
        exact hnd2.1 (List.mem_filterMap.mpr ⟨some b, List.getElem?_mem hi, rfl⟩)
      | i+1, j+1, hi, hj =>
        simp only [List.getElem?_cons_succ] at hi hj
        have := ih hnd2.2 i j a hi hj
        omega

end Compiler

end TinyQuery

namespace TinyQuery

namespace Compiler

/-- The assignment loop of get_aliases keeps every proposed alias in place,
and gives each unaliased position the lowest-numbered synthetic name not
taken by an explicit alias, by an earlier synthetic assignment of this run,
or by the synthetic names recorded in `prev` from an enclosing run. -/
theorem assignAliases_spec (used : List String) :
    ∀ (proposed : List (Option String)) (c : Nat) (prev : List String),
      (∀ k, k < c → genericName k ∈ used ∨ genericName k ∈ prev) →
      (∀ s ∈ prev, ∃ k, k < c ∧ s = genericName k) →
      (∀ x, some x ∈ proposed → x ∈ used) →
      (assignAliases used proposed c).length = proposed.length ∧
      (∀ (i : Nat) (a : String), proposed[i]? = some (some a) →
        (assignAliases used proposed c)[i]? = some a) ∧
      (∀ (i : Nat), proposed[i]? = some none →
        ∃ n, (assignAliases used proposed c)[i]? = some (genericName n) ∧
          genericName n ∉ used ∧ genericName n ∉ prev ∧
          genericName n ∉ (assignAliases used proposed c).take i ∧
          (∀ m, m < n → genericName m ∈ used ∨ genericName m ∈ prev ∨
            genericName m ∈ (assignAliases used proposed c).take i)) := by
  intro proposed
  induction proposed with
  | nil =>
    intro c prev hc hprev hsome
    refine ⟨rfl, ?_, ?_⟩
    · intro i a h
      simp at h
    · intro i h
      simp at h
  | cons o rest ih =>
    intro c prev hc hprev hsome
    cases o with
    | some a =>
      have hsome' : ∀ x, some x ∈ rest → x ∈ used :=
        fun x hx => hsome x (List.mem_cons_of_mem _ hx)
      have ha : a ∈ used := hsome a (List.mem_cons_self _ _)
      obtain ⟨ih1, ih2, ih3⟩ := ih c prev hc hprev hsome'
      rw [assignAliases]
      refine ⟨by simp [ih1], ?_, ?_⟩
      · intro i a' h
        match i, h with
        | 0, h =>
          have : a = a' := by simpa using h
          simp [this]
        | i+1, h =>
          simp only [List.getElem?_cons_succ] at h ⊢
          exact ih2 i a' h
      · intro i h
        match i, h with
        | 0, h => simp at h
        | i+1, h =>
          simp only [List.getElem?_cons_succ] at h
          obtain ⟨n, hres, hused, hprevn, htake, hmin⟩ := ih3 i h
          refine ⟨n, ?_, hused, hprevn, ?_, ?_⟩
          · simpa using hres
          · rw [List.take_succ_cons]
            intro hmem
            rcases List.mem_cons.mp hmem with heq | hmem2
            · exact hused (heq ▸ ha)
            · exact htake hmem2
          · intro m hm
            rcases hmin m hm with h1 | h2 | h3
            · exact .inl h1
            · exact .inr (.inl h2)
            · exact .inr (.inr (by rw [List.take_succ_cons]
                                   exact List.mem_cons_of_mem _ h3))
    | none =>
      have hsome' : ∀ x, some x ∈ rest → x ∈ used :=
        fun x hx => hsome x (List.mem_cons_of_mem _ hx)
      obtain ⟨hfree, hcle, hminused⟩ :=
        findGeneric_spec used (used.length + 1) c (findGeneric_fuel used c)
      set n := findGeneric used (used.length + 1) c with hn
      have hc' : ∀ k, k < n + 1 →
          genericName k ∈ used ∨ genericName k ∈ prev ++ [genericName n] := by
        intro k hk
        by_cases hkc : k < c
        · rcases hc k hkc with h1 | h2
          · exact .inl h1
          · exact .inr (List.mem_append_left _ h2)
        · by_cases hkn : k < n
          · exact .inl (hminused k (by omega) hkn)
          · have : k = n := by omega
            subst this
            exact .inr (List.mem_append_right _ (List.mem_singleton_self _))
      have hprev' : ∀ s ∈ prev ++ [genericName n], ∃ k, k < n + 1 ∧ s = genericName k := by
        intro s hs
        rcases List.mem_append.mp hs with h1 | h2
        · obtain ⟨k, hk, rfl⟩ := hprev s h1
          exact ⟨k, by omega, rfl⟩
        · exact ⟨n, by omega, List.mem_singleton.mp h2⟩
      obtain ⟨ih1, ih2, ih3⟩ := ih (n + 1) (prev ++ [genericName n]) hc' hprev' hsome'
      rw [assignAliases]
      rw [← hn]
      refine ⟨by simp [ih1], ?_, ?_⟩
      · intro i a' h
        match i, h with
        | 0, h => simp at h
        | i+1, h =>
          simp only [List.getElem?_cons_succ] at h ⊢
          exact ih2 i a' h
      · intro i h
        match i, h with
        | 0, h =>
          refine ⟨n, by simp, hfree, ?_, by simp, ?_⟩
          · intro hmem
            obtain ⟨k, hk, heq⟩ := hprev _ hmem
            have := genericName_inj n k heq
            omega
          · intro m hm
            by_cases hmc : m < c
            · rcases hc m hmc with h1 | h2
              · exact .inl h1
              · exact .inr (.inl h2)
            · exact .inl (hminused m (by omega) hm)
        | i+1, h =>
          simp only [List.getElem?_cons_succ] at h
          obtain ⟨n', hres, hused, hprevn, htake, hmin⟩ := ih3 i h
          have hne : genericName n' ≠ genericName n := by
            intro heq
            exact hprevn (heq ▸ List.mem_append_right _ (List.mem_singleton_self _))
          refine ⟨n', ?_, hused, ?_, ?_, ?_⟩
          · simpa using hres
          · intro hmem
            exact hprevn (List.mem_append_left _ hmem)
          · rw [List.take_succ_cons]
            intro hmem
            rcases List.mem_cons.mp hmem with heq | hmem2
            · exact hne heq
            · exact htake hmem2
          · intro m hm
            rcases hmin m hm with h1 | h2 | h3
            · exact .inl h1
            · rcases List.mem_append.mp h2 with h2a | h2b
              · exact .inr (.inl h2a)
              · exact .inr (.inr (by
                  rw [List.take_succ_cons]
                  exact List.mem_cons.mpr (.inl (List.mem_singleton.mp h2b))))
            · exact .inr (.inr (by
                rw [List.take_succ_cons]
                exact List.mem_cons_of_mem _ h3))

end Compiler

end TinyQuery

namespace TinyQuery

namespace Compiler

/-- C5: when get_aliases succeeds, explicit proposed aliases are kept in
place, every field with no proposed alias receives the lowest-numbered
synthetic name f<N>_ not taken by an explicit alias or a previously assigned
synthetic one, and the final alias list is collision-free. -/
theorem claim_c5_synthetic_aliases :
    ∀ (fields : List TqAst.SelectField) (aliases : List String),
      get_aliases fields = .ok aliases →
      aliases.length = fields.length ∧
      aliases.Nodup ∧
      (∀ (i : Nat) (a : String), (fields.map field_alias)[i]? = some (some a) →
        aliases[i]? = some a) ∧
      (∀ (i : Nat), (fields.map field_alias)[i]? = some none →
        ∃ n, aliases[i]? = some (genericName n) ∧
          genericName n ∉ fields.filterMap field_alias ∧
          genericName n ∉ aliases.take i ∧
          (∀ m, m < n → genericName m ∈ fields.filterMap field_alias ∨
            genericName m ∈ aliases.take i)) := by
  intro fields aliases h
  rw [get_aliases] at h
  obtain ⟨used, hused, h⟩ := bindOk h
  cases h
  have memiff : ∀ x, x ∈ used ↔ x ∈ (fields.map field_alias).filterMap id := by
    intro x
    rw [checkDup_mem (fields.map field_alias) [] used hused x]
    simp
  have hfm : (fields.map field_alias).filterMap id = fields.filterMap field_alias := by
    rw [List.filterMap_map]
    rfl
  have hsome : ∀ x, some x ∈ fields.map field_alias → x ∈ used := by
    intro x hx
    exact (memiff x).mpr (List.mem_filterMap.mpr ⟨some x, hx, rfl⟩)
  obtain ⟨hlen, hkeep, hgen⟩ :=
    assignAliases_spec used (fields.map field_alias) 0 []
      (fun k hk => absurd hk (by omega)) (fun s hs => absurd hs (by simp)) hsome
  have hnd : (fields.filterMap field_alias).Nodup := hfm ▸ checkDup_ok_nodup hused
  refine ⟨by rw [hlen, List.length_map], ?_, hkeep, ?_⟩
  · rw [List.nodup_iff_getElem?_ne_getElem?]
    intro i j hij hj hEq
    have hjp : j < (fields.map field_alias).length := by
      rw [List.length_map]
      rw [hlen, List.length_map] at hj
      exact hj
    have hip : i < (fields.map field_alias).length := by omega
    cases hpj : (fields.map field_alias)[j] with
    | some a =>
      have hpj? : (fields.map field_alias)[j]? = some (some a) := by
        rw [List.getElem?_eq_getElem hjp, hpj]
      have haj : (assignAliases used (fields.map field_alias) 0)[j]? = some a :=
        hkeep j a hpj?
      cases hpi : (fields.map field_alias)[i] with
      | some b =>
        have hpi? : (fields.map field_alias)[i]? = some (some b) := by
          rw [List.getElem?_eq_getElem hip, hpi]
        have hai := hkeep i b hpi?
        rw [hai, haj] at hEq
        have hb : b = a := by simpa using hEq
        subst hb
        have := filterMap_id_pos_inj (fields.map field_alias)
          (hfm ▸ hnd) i j b hpi? hpj?
        omega
      | none =>
        have hpi? : (fields.map field_alias)[i]? = some none := by
          rw [List.getElem?_eq_getElem hip, hpi]
        obtain ⟨n, hai, hnu, _, _, _⟩ := hgen i hpi?
        rw [hai, haj] at hEq
        have : genericName n = a := by simpa using hEq
        refine absurd ((memiff a).mpr ?_) (this ▸ hnu)
        exact List.mem_filterMap.mpr ⟨some a, List.getElem?_mem hpj?, rfl⟩
    | none =>
      have hpj? : (fields.map field_alias)[j]? = some none := by
        rw [List.getElem?_eq_getElem hjp, hpj]
      obtain ⟨n, haj, _, _, htake, _⟩ := hgen j hpj?
      have hai : (assignAliases used (fields.map field_alias) 0)[i]? =
          some (genericName n) := hEq.trans haj
      refine htake (List.getElem?_mem (show
        ((assignAliases used (fields.map field_alias) 0).take j)[i]? =
          some (genericName n) from ?_))
      rw [List.getElem?_take_of_lt hij]
      exact hai
  · intro i h
    obtain ⟨n, hres, hnu, _, htake, hmin⟩ := hgen i h
    refine ⟨n, hres, ?_, htake, ?_⟩
    · intro hmem
      exact hnu ((memiff _).mpr (hfm ▸ hmem))
    · intro m hm
      rcases hmin m hm with h1 | h2 | h3
      · exact .inl (hfm ▸ (memiff _).mp h1)
      · simp at h2
      · exact .inr h3

end Compiler

end TinyQuery

namespace TinyQuery

/-- Select fields (1, 2 AS f0_): the first proposes no alias, the second
explicitly takes the synthetic-looking name f0_. -/
def skipAliasFields : List TqAst.SelectField :=
  [⟨.literal (.int 1), none⟩, ⟨.literal (.int 2), some "f0_"⟩]

namespace Compiler

/-- Witness for C5: with f0_ taken by an explicit alias, the first unaliased
field receives f1_, and the resulting alias list is collision-free. -/
theorem claim_c5_witness :
    get_aliases skipAliasFields = .ok ["f1_", "f0_"] ∧
    genericName 0 = "f0_" ∧
    genericName 1 = "f1_" ∧
    (["f1_", "f0_"] : List String).Nodup ∧
    (∃ n, (["f1_", "f0_"] : List String)[0]? = some (genericName n) ∧
      genericName n ∉ skipAliasFields.filterMap field_alias ∧
      genericName n ∉ (["f1_", "f0_"] : List String).take 0 ∧
      (∀ m, m < n → genericName m ∈ skipAliasFields.filterMap field_alias ∨
        genericName m ∈ (["f1_", "f0_"] : List String).take 0)) :=
  ⟨rfl, rfl, rfl,
   (claim_c5_synthetic_aliases skipAliasFields ["f1_", "f0_"] rfl).2.1,
   (claim_c5_synthetic_aliases skipAliasFields ["f1_", "f0_"] rfl).2.2.2 0 rfl⟩

end Compiler

end TinyQuery
